import Mathlib

/-!
Verification of the cache + rate-limited batch client + synchronized data-access
layer of the bot repository (source file `utility.py`).

The Python source is shallowly embedded:
* timestamps (`time.time()`, `datetime.now()`) are integers in tenths of a
  second (see the "Time model" section below);
* `asyncio.sleep(t)` advances the model clock by exactly `t` (the relevant locks
  are held across every sleep in the source, so no other mutation interleaves);
* Python `int` is `ℤ`, `str(int)` / `int(str)` / `.isdigit()` / `.strip()` are
  modelled by executable functions below (ASCII digits, ASCII whitespace — the
  cells handled by this module only ever contain ASCII);
* fallible calls return `Except Unit` / `Bool` exactly as the source either
  raises or returns a failure value.
-/

/-! ### Python string and number primitives -/

/-- The ten ASCII digit characters. -/
def asciiDigits : List Char := ['0', '1', '2', '3', '4', '5', '6', '7', '8', '9']

/-- Model of Python `str.isdigit` restricted to ASCII (the only digits that occur
in the sheet cells handled by this module). -/
def isAsciiDigit (c : Char) : Bool := asciiDigits.elem c

/-- ASCII whitespace, for Python `str.strip`. -/
def isSpaceChar (c : Char) : Bool := [' ', '\t', '\n', '\r'].elem c

/-- Python `str.strip` on a character list: drop whitespace at both ends. -/
def trimChars (cs : List Char) : List Char :=
  ((cs.dropWhile isSpaceChar).reverse.dropWhile isSpaceChar).reverse

/-- Python `str.strip` as a `String` operation. -/
def strTrim (s : String) : String := String.mk (trimChars s.data)

/-- Decimal digit to character. -/
def digitChar (d : ℕ) : Char :=
  match d with
  | 0 => '0' | 1 => '1' | 2 => '2' | 3 => '3' | 4 => '4'
  | 5 => '5' | 6 => '6' | 7 => '7' | 8 => '8' | _ => '9'

/-- Character to decimal digit value (0 for non-digits). -/
def charVal (c : Char) : ℕ :=
  match c with
  | '0' => 0 | '1' => 1 | '2' => 2 | '3' => 3 | '4' => 4
  | '5' => 5 | '6' => 6 | '7' => 7 | '8' => 8 | '9' => 9 | _ => 0

/-- Decimal value of a digit string (left fold, most significant first). -/
def decimalOfChars (cs : List Char) : ℕ :=
  cs.foldl (fun a c => a * 10 + charVal c) 0

/-- Decimal digit characters of `n`, most significant first; `fuel` bounds the
recursion (`fuel = n` always suffices). -/
def natToStrAux : ℕ → ℕ → List Char
  | 0, _ => []
  | fuel + 1, n => if n = 0 then [] else natToStrAux fuel (n / 10) ++ [digitChar (n % 10)]

/-- Model of Python `str(n)` for a natural number. -/
def natToStr (n : ℕ) : String := if n = 0 then "0" else String.mk (natToStrAux n n)

/-- Model of Python `str(i)` for an `int`. -/
def intStr (i : ℤ) : String := if i < 0 then "-" ++ natToStr i.natAbs else natToStr i.toNat

/-- Model of `int(row[2]) if row[2] and str(row[2]).isdigit() else 0`
(the coins parse in `get_batch_user_data`): only pure nonempty digit strings are
accepted, everything else — including `"-5"` — reads as `0`. -/
def parseCoins (s : String) : ℤ :=
  if s.data ≠ [] ∧ s.data.all isAsciiDigit then ((decimalOfChars s.data : ℕ) : ℤ) else 0

/-- Model of `int(str(x).strip()) if x and str(x).strip() else 0` with
`except ValueError: 0` (the corruption parse in `get_batch_user_data`):
Python `int()` accepts an optional sign before the digits. -/
def parseIntStr (s : String) : ℤ :=
  let t := trimChars s.data
  if t ≠ [] ∧ t.all isAsciiDigit then (decimalOfChars t : ℤ)
  else
    match t with
    | '-' :: rest => if rest ≠ [] ∧ rest.all isAsciiDigit then -(decimalOfChars rest : ℤ) else 0
    | '+' :: rest => if rest ≠ [] ∧ rest.all isAsciiDigit then (decimalOfChars rest : ℤ) else 0
    | _ => 0

/-- Python `",".join(l)`. -/
def joinComma (l : List String) : String := String.intercalate "," l

/-- Python `[s.strip() for s in x.split(",") if s.strip()] if x else []`. -/
def splitCommaClean (s : String) : List String :=
  if s.data.isEmpty then []
  else ((s.splitOn ",").map strTrim).filter (fun t => !t.data.isEmpty)

/-- Python `str.upper` for ASCII characters (the cells compared with `'Y'`
contain only ASCII). -/
def asciiUpper (c : Char) : Char :=
  if 'a' ≤ c ∧ c ≤ 'z' then Char.ofNat (c.toNat - 32) else c

/-- Python `str.upper` as a `String` operation. -/
def strUpper (s : String) : String := String.mk (s.data.map asciiUpper)

/-- Python `pattern in key` (substring containment), on character lists. -/
def charsPrefix : List Char → List Char → Bool
  | [], _ => true
  | _ :: _, [] => false
  | a :: as, b :: bs => a == b && charsPrefix as bs

/-- Substring search used by `charsContains`. -/
def charsContains (pat : List Char) : List Char → Bool
  | [] => pat.isEmpty
  | c :: rest => charsPrefix pat (c :: rest) || charsContains pat rest

/-- Python `pat in hay` for strings. -/
def strContains (hay pat : String) : Bool := charsContains pat.data hay.data

/-! ### Roundtrip lemmas for the number/string primitives -/

theorem decimalOfChars_append (cs : List Char) (c : Char) :
    decimalOfChars (cs ++ [c]) = decimalOfChars cs * 10 + charVal c := by
  simp [decimalOfChars, List.foldl_append]

theorem digitChar_isDigit (d : ℕ) : isAsciiDigit (digitChar d) = true := by
  unfold digitChar
  rcases d with _ | _ | _ | _ | _ | _ | _ | _ | _ | d <;> rfl

theorem charVal_digitChar {d : ℕ} (h : d < 10) : charVal (digitChar d) = d := by
  interval_cases d <;> rfl

theorem natToStrAux_zero (fuel : ℕ) : natToStrAux fuel 0 = [] := by
  cases fuel <;> rfl

theorem natToStrAux_all_digit (fuel n : ℕ) : (natToStrAux fuel n).all isAsciiDigit = true := by
  induction fuel generalizing n with
  | zero => rfl
  | succ fuel ih =>
    unfold natToStrAux
    by_cases h : n = 0
    · simp [h]
    · simp [h, List.all_append, ih, digitChar_isDigit]

theorem natToStrAux_eval (fuel n : ℕ) (hn : 0 < n) (hf : n ≤ fuel) :
    decimalOfChars (natToStrAux fuel n) = n := by
  induction fuel generalizing n with
  | zero => omega
  | succ fuel ih =>
    unfold natToStrAux
    rw [if_neg (Nat.pos_iff_ne_zero.mp hn)]
    rw [decimalOfChars_append, charVal_digitChar (Nat.mod_lt _ (by norm_num))]
    by_cases h10 : n / 10 = 0
    · rw [h10, natToStrAux_zero]
      have : decimalOfChars [] = 0 := rfl
      omega
    · rw [ih (n / 10) (Nat.pos_iff_ne_zero.mpr h10)
        (by have := Nat.div_lt_self hn (by norm_num : (1 : ℕ) < 10); omega)]
      omega

theorem natToStrAux_ne_nil (fuel n : ℕ) (hn : 0 < n) (hf : n ≤ fuel) :
    natToStrAux fuel n ≠ [] := by
  cases fuel with
  | zero => omega
  | succ fuel =>
    unfold natToStrAux
    rw [if_neg (Nat.pos_iff_ne_zero.mp hn)]
    simp

theorem natToStr_data (n : ℕ) :
    (natToStr n).data = if n = 0 then ['0'] else natToStrAux n n := by
  unfold natToStr
  by_cases h : n = 0 <;> simp [h]

theorem parseCoins_natToStr (n : ℕ) : parseCoins (natToStr n) = (n : ℤ) := by
  unfold parseCoins
  rw [natToStr_data]
  by_cases h : n = 0
  · subst h; rfl
  · simp only [h, if_false]
    rw [if_pos]
    · rw [natToStrAux_eval n n (Nat.pos_iff_ne_zero.mpr h) le_rfl]
    · exact ⟨natToStrAux_ne_nil n n (Nat.pos_iff_ne_zero.mpr h) le_rfl, natToStrAux_all_digit n n⟩

theorem parseCoins_nonneg (s : String) : 0 ≤ parseCoins s := by
  unfold parseCoins
  split
  · exact Int.ofNat_nonneg _
  · exact le_refl 0

theorem isAsciiDigit_not_space {c : Char} (h : isAsciiDigit c = true) :
    isSpaceChar c = false := by
  have hm : c ∈ asciiDigits := by
    simpa [isAsciiDigit, List.elem_iff] using h
  fin_cases hm <;> rfl

theorem dropWhile_of_all_digit (cs : List Char) (h : cs.all isAsciiDigit = true) :
    cs.dropWhile isSpaceChar = cs := by
  cases cs with
  | nil => rfl
  | cons c rest =>
    have hc : isAsciiDigit c = true := by
      simp [List.all_cons] at h; exact h.1
    simp [List.dropWhile_cons, isAsciiDigit_not_space hc]

theorem trimChars_of_all_digit (cs : List Char) (h : cs.all isAsciiDigit = true) :
    trimChars cs = cs := by
  unfold trimChars
  rw [dropWhile_of_all_digit cs h]
  rw [dropWhile_of_all_digit cs.reverse (by
    simp only [List.all_eq_true] at h ⊢
    exact fun c hc => h c (List.mem_reverse.mp hc))]
  exact List.reverse_reverse cs

theorem parseIntStr_natToStr (n : ℕ) : parseIntStr (natToStr n) = (n : ℤ) := by
  have hall : ((natToStr n).data.all isAsciiDigit) = true := by
    rw [natToStr_data]
    by_cases h : n = 0
    · simp only [h, if_true, reduceIte]; rfl
    · simp only [h, if_false]; exact natToStrAux_all_digit n n
  have hne : (natToStr n).data ≠ [] := by
    rw [natToStr_data]
    by_cases h : n = 0
    · simp [h]
    · simp only [h, if_false]
      exact natToStrAux_ne_nil n n (Nat.pos_iff_ne_zero.mpr h) le_rfl
  unfold parseIntStr
  simp only [trimChars_of_all_digit _ hall]
  rw [if_pos ⟨hne, hall⟩]
  have := parseCoins_natToStr n
  unfold parseCoins at this
  rw [if_pos ⟨hne, hall⟩] at this
  exact this

theorem intStr_of_nonneg (i : ℤ) (h : 0 ≤ i) : intStr i = natToStr i.toNat := by
  unfold intStr
  rw [if_neg (not_lt.mpr h)]

theorem parseIntStr_intStr_of_nonneg (i : ℤ) (h : 0 ≤ i) : parseIntStr (intStr i) = i := by
  rw [intStr_of_nonneg i h, parseIntStr_natToStr, Int.toNat_of_nonneg h]

theorem parseCoins_intStr_of_nonneg (i : ℤ) (h : 0 ≤ i) : parseCoins (intStr i) = i := by
  rw [intStr_of_nonneg i h, parseCoins_natToStr, Int.toNat_of_nonneg h]

/-! ### Time model

All timestamps and durations below are integers in units of 0.1 seconds
(deciseconds). This is an exact linear rescaling of the source's seconds:
the source's only non-integer constant, the `0.1` second epsilon added to the
rate limiter's wait, becomes the integer `1`, and every other constant is the
source's value times ten (60 s window = 600, 3600 s TTL = 36000, and so on).
Rescaling time by a positive constant preserves every property stated here and
keeps all definitions kernel-computable. -/

/-- 100 calls per window (`API_RATE_LIMIT`). -/
def API_RATE_LIMIT : ℕ := 100

/-- 60-second window (`API_RATE_WINDOW`), in tenths of a second. -/
def API_RATE_WINDOW : ℤ := 600

/-! ### APIRateLimiter

`APIRateLimiter.acquire` holds `self._lock` for its whole body, including the
`await asyncio.sleep(wait_time)`, so one call is an atomic state transition;
the sleep is modelled as advancing the clock by exactly the wait. -/

/-- The list comprehension `[t for t in self.calls if now - t < self.window]`. -/
def pruneCalls (window now : ℤ) (calls : List ℤ) : List ℤ :=
  calls.filter (fun t => decide (now - t < window))

/-- One `APIRateLimiter.acquire()` call: prune the window; if at capacity,
compute `wait = window - (now - oldest) + 0.1`, sleep once, prune again and
grant; otherwise grant immediately. Returns (grant timestamp, new `calls`). -/
def acquire (maxCalls : ℕ) (window now : ℤ) (calls : List ℤ) : ℤ × List ℤ :=
  if maxCalls ≤ (pruneCalls window now calls).length then
    match pruneCalls window now calls with
    | [] => (now, [now])
    | oldest :: _ =>
      (now + (window - (now - oldest) + 1),
        pruneCalls window (now + (window - (now - oldest) + 1)) (pruneCalls window now calls) ++
          [now + (window - (now - oldest) + 1)])
  else (now, pruneCalls window now calls ++ [now])

/-- State of a run of `acquire` calls: the current clock, the limiter's `calls`
list, and (as history for stating the sliding-window property) every grant ever
issued, in order. -/
structure RLState where
  time : ℤ
  calls : List ℤ
  grants : List ℤ
deriving DecidableEq

/-- One caller invoking `acquire` after `d ≥ 0` time units have passed since the
previous call returned (callers are serialized by the limiter's lock). -/
def acquireStep (m : ℕ) (w : ℤ) (d : ℤ) (st : RLState) : RLState :=
  let r := acquire m w (st.time + d) st.calls
  { time := r.1, calls := r.2, grants := st.grants ++ [r.1] }

/-- A whole run: fold `acquireStep` over the inter-arrival delays. -/
def runAcquires (m : ℕ) (w : ℤ) (ds : List ℤ) (st : RLState) : RLState :=
  ds.foldl (fun s d => acquireStep m w d s) st

/-- Number of grants inside the sliding window `(u - w, u]`. -/
def countWindow (w u : ℤ) (g : List ℤ) : ℕ :=
  g.countP (fun x => decide (u - w < x) && decide (x ≤ u))

/-- Run invariant: the stored list is exactly the grants still inside the
current window, it is within capacity, all grants lie in the past, and every
sliding window holds at most `m` grants. -/
def RLInv (m : ℕ) (w : ℤ) (st : RLState) : Prop :=
  st.calls = st.grants.filter (fun g => decide (st.time - g < w)) ∧
  st.calls.length ≤ m ∧
  (∀ g ∈ st.grants, g ≤ st.time) ∧
  (∀ u : ℤ, countWindow w u st.grants ≤ m)

theorem pruneCalls_pruneCalls (w : ℤ) {t t' : ℤ} (h : t ≤ t') (l : List ℤ) :
    pruneCalls w t' (pruneCalls w t l) = pruneCalls w t' l := by
  unfold pruneCalls
  rw [List.filter_filter]
  apply List.filter_congr
  intro g _
  by_cases hg : t' - g < w
  · have h2 : t - g < w := by omega
    simp [hg, h2]
  · simp [hg]

theorem countWindow_le_filter (w u t : ℤ) (g : List ℤ) (_hb : ∀ x ∈ g, x ≤ t) (hut : t ≤ u) :
    countWindow w u g ≤ (g.filter (fun x => decide (t - x < w))).length := by
  rw [← List.countP_eq_length_filter]
  apply List.countP_mono_left
  intro x hx hpx
  simp only [Bool.and_eq_true, decide_eq_true_eq] at hpx
  simp only [decide_eq_true_eq]
  omega

theorem countP_singleton_le (p : ℤ → Bool) (x : ℤ) : List.countP p [x] ≤ 1 := by
  have h := List.countP_le_length (p := p) (l := [x])
  simpa using h

theorem RLInv_step (m : ℕ) (w : ℤ) (hm : 1 ≤ m) (hw : 0 < w)
    (st : RLState) (d : ℤ) (hd : 0 ≤ d) (hst : RLInv m w st) :
    RLInv m w (acquireStep m w d st) := by
  obtain ⟨hcf, hlen, hbound, hwin⟩ := hst
  have hsc : st.calls = pruneCalls w st.time st.grants := hcf
  have htn : st.time ≤ st.time + d := by omega
  have hcalls1 : pruneCalls w (st.time + d) st.calls = pruneCalls w (st.time + d) st.grants := by
    rw [hsc]; exact pruneCalls_pruneCalls w htn st.grants
  by_cases hcap : m ≤ (pruneCalls w (st.time + d) st.calls).length
  · -- at capacity: one sleep, re-prune, grant
    rcases hc : pruneCalls w (st.time + d) st.calls with _ | ⟨oldest, rest⟩
    · rw [hc] at hcap; simp at hcap; omega
    · have hle : (pruneCalls w (st.time + d) st.calls).length ≤ st.calls.length :=
        List.length_filter_le _ _
      have hlen1 : rest.length + 1 = m := by
        rw [hc] at hcap hle
        simp only [List.length_cons] at hcap hle
        omega
      have holdmem : oldest ∈ pruneCalls w (st.time + d) st.grants := by
        rw [← hcalls1, hc]; exact List.mem_cons_self _ _
      have holdg : oldest ∈ st.grants := (List.mem_filter.mp holdmem).1
      have holdw : st.time + d - oldest < w := by
        have h2 := (List.mem_filter.mp holdmem).2
        simpa using h2
      have hnn2 : st.time + d ≤ st.time + d + (w - (st.time + d - oldest) + 1) := by omega
      have hno2 : st.time + d + (w - (st.time + d - oldest) + 1) - oldest = w + 1 := by omega
      have hstep : acquireStep m w d st =
          { time := st.time + d + (w - (st.time + d - oldest) + 1),
            calls := pruneCalls w (st.time + d + (w - (st.time + d - oldest) + 1))
                (oldest :: rest) ++ [st.time + d + (w - (st.time + d - oldest) + 1)],
            grants := st.grants ++ [st.time + d + (w - (st.time + d - oldest) + 1)] } := by
        unfold acquireStep acquire
        rw [hc, if_pos (by rw [hc] at hcap; exact hcap)]
      generalize hg2 : st.time + d + (w - (st.time + d - oldest) + 1) = now2 at hstep hnn2 hno2
      have hc2g : pruneCalls w now2 (oldest :: rest) = pruneCalls w now2 st.grants := by
        rw [← hc, pruneCalls_pruneCalls w hnn2, hsc,
          pruneCalls_pruneCalls w (le_trans htn hnn2)]
      have hc2len : (pruneCalls w now2 (oldest :: rest)).length + 1 ≤ m := by
        unfold pruneCalls
        rw [List.filter_cons_of_neg (by simp only [decide_eq_true_eq]; omega)]
        have h2 := List.length_filter_le (fun t => decide (now2 - t < w)) rest
        omega
      rw [hstep]
      refine ⟨?_, ?_, ?_, ?_⟩
      · show pruneCalls w now2 (oldest :: rest) ++ [now2] =
          (st.grants ++ [now2]).filter (fun g => decide (now2 - g < w))
        rw [List.filter_append, hc2g]
        unfold pruneCalls
        congr 1
        simp only [List.filter_cons, List.filter_nil]
        rw [if_pos (by simp only [decide_eq_true_eq]; omega)]
      · show (pruneCalls w now2 (oldest :: rest) ++ [now2]).length ≤ m
        rw [List.length_append]
        have h1 : ([now2] : List ℤ).length = 1 := rfl
        omega
      · show ∀ g ∈ st.grants ++ [now2], g ≤ now2
        intro g hg
        rcases List.mem_append.mp hg with hg | hg
        · exact le_trans (hbound g hg) (le_trans htn hnn2)
        · simp only [List.mem_singleton] at hg; omega
      · show ∀ u : ℤ, countWindow w u (st.grants ++ [now2]) ≤ m
        intro u
        unfold countWindow
        rw [List.countP_append]
        by_cases hp : now2 ≤ u
        · have h1 : countWindow w u st.grants ≤
              (st.grants.filter (fun x => decide (now2 - x < w))).length := by
            apply countWindow_le_filter w u now2 st.grants
            · intro x hx; exact le_trans (hbound x hx) (le_trans htn hnn2)
            · exact hp
          have heq : (st.grants.filter (fun x => decide (now2 - x < w))).length =
              (pruneCalls w now2 (oldest :: rest)).length := by
            rw [hc2g]; rfl
          have h2 : List.countP (fun x => decide (u - w < x) && decide (x ≤ u)) [now2] ≤ 1 :=
            countP_singleton_le _ _
          have h3 : countWindow w u st.grants =
              List.countP (fun x => decide (u - w < x) && decide (x ≤ u)) st.grants := rfl
          omega
        · have hx : decide (now2 ≤ u) = false := by
            simp only [decide_eq_false_iff_not]; omega
          have h2 : List.countP (fun x => decide (u - w < x) && decide (x ≤ u)) [now2] = 0 := by
            simp [List.countP_cons, hx]
          have h3 : countWindow w u st.grants =
              List.countP (fun x => decide (u - w < x) && decide (x ≤ u)) st.grants := rfl
          have h4 := hwin u
          omega
  · -- below capacity: grant immediately
    have hstep : acquireStep m w d st =
        { time := st.time + d,
          calls := pruneCalls w (st.time + d) st.calls ++ [st.time + d],
          grants := st.grants ++ [st.time + d] } := by
      unfold acquireStep acquire
      rw [if_neg hcap]
    have hltm : (pruneCalls w (st.time + d) st.calls).length < m := by omega
    rw [hstep]
    refine ⟨?_, ?_, ?_, ?_⟩
    · show pruneCalls w (st.time + d) st.calls ++ [st.time + d] =
        (st.grants ++ [st.time + d]).filter (fun g => decide (st.time + d - g < w))
      rw [List.filter_append, hcalls1]
      unfold pruneCalls
      congr 1
      simp only [List.filter_cons, List.filter_nil]
      rw [if_pos (by simp only [decide_eq_true_eq]; omega)]
    · show (pruneCalls w (st.time + d) st.calls ++ [st.time + d]).length ≤ m
      rw [List.length_append]
      have h1 : ([st.time + d] : List ℤ).length = 1 := rfl
      omega
    · show ∀ g ∈ st.grants ++ [st.time + d], g ≤ st.time + d
      intro g hg
      rcases List.mem_append.mp hg with hg | hg
      · exact le_trans (hbound g hg) htn
      · simp only [List.mem_singleton] at hg; omega
    · show ∀ u : ℤ, countWindow w u (st.grants ++ [st.time + d]) ≤ m
      intro u
      unfold countWindow
      rw [List.countP_append]
      by_cases hp : st.time + d ≤ u
      · have h1 : countWindow w u st.grants ≤
            (st.grants.filter (fun x => decide (st.time + d - x < w))).length := by
          apply countWindow_le_filter w u (st.time + d) st.grants
          · intro x hx; exact le_trans (hbound x hx) htn
          · exact hp
        have heq : (st.grants.filter (fun x => decide (st.time + d - x < w))).length =
            (pruneCalls w (st.time + d) st.calls).length := by
          rw [hcalls1]; rfl
        have h2 : List.countP (fun x => decide (u - w < x) && decide (x ≤ u)) [st.time + d] ≤ 1 :=
          countP_singleton_le _ _
        have h3 : countWindow w u st.grants =
            List.countP (fun x => decide (u - w < x) && decide (x ≤ u)) st.grants := rfl
        omega
      · have hx : decide (st.time + d ≤ u) = false := by
          simp only [decide_eq_false_iff_not]; omega
        have h2 : List.countP (fun x => decide (u - w < x) && decide (x ≤ u)) [st.time + d] = 0 := by
          simp [List.countP_cons, hx]
        have h3 : countWindow w u st.grants =
            List.countP (fun x => decide (u - w < x) && decide (x ≤ u)) st.grants := rfl
        have h4 := hwin u
        omega

theorem RLInv_run (m : ℕ) (w : ℤ) (hm : 1 ≤ m) (hw : 0 < w)
    (ds : List ℤ) (hds : ∀ d ∈ ds, 0 ≤ d) (st : RLState) (hst : RLInv m w st) :
    RLInv m w (runAcquires m w ds st) := by
  induction ds generalizing st with
  | nil => exact hst
  | cons d ds ih =>
    exact ih (fun x hx => hds x (List.mem_cons_of_mem _ hx)) _
      (RLInv_step m w hm hw st d (hds d (List.mem_cons_self _ _)) hst)

/-- C3: for all sequences of `acquire()` calls (arbitrary nonnegative
inter-arrival delays, arbitrary start time), no sliding window of length
`window` ever contains more than `maxCalls` grants, and `len(calls) ≤ maxCalls`
holds whenever `acquire` returns. -/
theorem rate_limiter_sliding_window (m : ℕ) (w : ℤ) (hm : 1 ≤ m) (hw : 0 < w)
    (t0 : ℤ) (ds : List ℤ) (hds : ∀ d ∈ ds, 0 ≤ d) :
    (runAcquires m w ds ⟨t0, [], []⟩).calls.length ≤ m ∧
    ∀ u : ℤ, countWindow w u (runAcquires m w ds ⟨t0, [], []⟩).grants ≤ m := by
  have h0 : RLInv m w ⟨t0, [], []⟩ := by
    refine ⟨rfl, by simp, by simp, fun u => by simp [countWindow]⟩
  have h := RLInv_run m w hm hw ds hds _ h0
  exact ⟨h.2.1, h.2.2.2⟩

/-- Witness for C3 at the source's configuration (100 calls / 60 s window)
and a concrete burst of four immediate calls. -/
theorem rate_limiter_sliding_window_witness :
    (runAcquires 100 600 [0, 0, 0, 0] ⟨0, [], []⟩).calls.length ≤ 100 ∧
    ∀ u : ℤ, countWindow 600 u (runAcquires 100 600 [0, 0, 0, 0] ⟨0, [], []⟩).grants ≤ 100 :=
  rate_limiter_sliding_window 100 600 (by norm_num) (by norm_num) 0 [0, 0, 0, 0]
    (by intro d hd; fin_cases hd <;> norm_num)

/-- Modelled from the spec: the loop form of `acquire` that the spec describes —
"compute `wait = windowSeconds - (now - oldestEntry) + epsilon`, suspend for
`wait`, then re-evaluate (loop, not single sleep-then-grant)". The loop repeats
the wait while the pruned window is still at capacity; `fuel` bounds the number
of iterations (never reached in the uses below). -/
def acquireSpecLoop : ℕ → ℕ → ℤ → ℤ → List ℤ → ℤ × List ℤ
  | 0, _, _, now, calls => (now, calls ++ [now])
  | fuel + 1, m, w, now, calls =>
    if m ≤ (pruneCalls w now calls).length then
      match pruneCalls w now calls with
      | [] => (now, [now])
      | oldest :: _ =>
        acquireSpecLoop fuel m w (now + (w - (now - oldest) + 1)) (pruneCalls w now calls)
    else (now, pruneCalls w now calls ++ [now])

/-- C4 counterexample: with `maxCalls = 1`, `window = 60 s`, `now = 50 s` and
window contents `[0 s, 1 s, 50 s]`, the source's `acquire` sleeps once and then
grants even though the re-pruned window still holds 2 ≥ 1 entries (the returned
list has 3 > 1 entries), whereas the loop the claim describes would wait twice
more and return a singleton window; the two disagree. -/
theorem acquire_single_sleep_counterexample :
    acquire 1 600 500 [0, 10, 500] = (601, [10, 500, 601]) ∧
    (acquire 1 600 500 [0, 10, 500]).2.length = 3 ∧
    1 < (acquire 1 600 500 [0, 10, 500]).2.length ∧
    acquireSpecLoop 5 1 600 500 [0, 10, 500] = (1101, [1101]) ∧
    acquire 1 600 500 [0, 10, 500] ≠ acquireSpecLoop 5 1 600 500 [0, 10, 500] := by
  decide

/-- C4 (amended): when `acquire` finds the pruned window at capacity it computes
`wait = window - (now - oldest) + 0.1` for the oldest pruned entry, suspends
exactly once, re-prunes, and grants without re-evaluating the capacity check;
because the lock is held across the sleep, the single sleep always expels the
oldest entry, so on states within capacity the grant still satisfies
`len(calls) ≤ maxCalls`. -/
theorem acquire_single_sleep_then_grant (m : ℕ) (w now : ℤ) (calls : List ℤ)
    (hlen : calls.length ≤ m)
    (oldest : ℤ) (rest : List ℤ) (hc : pruneCalls w now calls = oldest :: rest)
    (hcap : m ≤ (oldest :: rest).length) :
    (acquire m w now calls).1 = now + (w - (now - oldest) + 1) ∧
    (acquire m w now calls).2 =
      pruneCalls w (now + (w - (now - oldest) + 1)) (oldest :: rest) ++
        [now + (w - (now - oldest) + 1)] ∧
    (acquire m w now calls).2.length ≤ m := by
  have hresult : acquire m w now calls =
      (now + (w - (now - oldest) + 1),
        pruneCalls w (now + (w - (now - oldest) + 1)) (oldest :: rest) ++
          [now + (w - (now - oldest) + 1)]) := by
    unfold acquire
    rw [hc, if_pos hcap]
  have hfle : (pruneCalls w (now + (w - (now - oldest) + 1)) (oldest :: rest)).length + 1 ≤ m := by
    unfold pruneCalls
    rw [List.filter_cons_of_neg (by simp only [decide_eq_true_eq]; omega)]
    have h1 := List.length_filter_le (fun t => decide (now + (w - (now - oldest) + 1) - t < w)) rest
    have h2 : (pruneCalls w now calls).length ≤ calls.length := List.length_filter_le _ _
    rw [hc] at h2
    simp only [List.length_cons] at h2
    omega
  refine ⟨by rw [hresult], by rw [hresult], ?_⟩
  rw [hresult, List.length_append]
  have h1 : ([now + (w - (now - oldest) + 1)] : List ℤ).length = 1 := rfl
  omega

/-- Witness for the amended C4: one entry `0 s` in a capacity-1 window at
`now = 30 s` makes `acquire` grant at `30 + (60 - 30 + 0.1) = 60.1 s` with a
singleton window. -/
theorem acquire_single_sleep_then_grant_witness :
    (acquire 1 600 300 [0]).1 = 300 + (600 - (300 - 0) + 1) ∧
    (acquire 1 600 300 [0]).2 =
      pruneCalls 600 (300 + (600 - (300 - 0) + 1)) [0] ++ [300 + (600 - (300 - 0) + 1)] ∧
    (acquire 1 600 300 [0]).2.length ≤ 1 :=
  acquire_single_sleep_then_grant 1 600 300 [0] (by norm_num) 0 [] (by decide) (by decide)

/-! ### InMemoryCache

Keys map to entries as in the source's `OrderedDict`: an association list with
unique keys in insertion/recency order. Python dict assignment followed by
`move_to_end` is `remove old binding, append new one at the end`. Every mutating
operation holds `self._lock`, so each is one atomic transition. The periodic
background tasks (`_periodic_cleanup`, `_periodic_backup`) just invoke the
operations modelled here on a timer and are not modelled separately. -/

/-- 3600 s default TTL, in tenths of a second. -/
def DEFAULT_CACHE_TTL : ℤ := 36000

/-- 300 s TTL for frequently changing user rows, in tenths of a second. -/
def SHORT_CACHE_TTL : ℤ := 3000

/-- 86400 s TTL for metadata, in tenths of a second. -/
def LONG_CACHE_TTL : ℤ := 864000

/-- A cache entry (`CacheEntry` dataclass). -/
structure CEntry (α : Type) where
  value : α
  created_at : ℤ
  ttl : ℤ
  access_count : ℕ
  last_access : ℤ
deriving DecidableEq

/-- Python `CacheEntry.is_expired`: `(now - created_at).total_seconds() > ttl`. -/
def CEntry.expired {α : Type} (now : ℤ) (e : CEntry α) : Bool :=
  decide (now - e.created_at > e.ttl)

/-- The cache (`InMemoryCache`): ordered entries plus configuration and stats.
`cleanup_threshold` is the source's `0.8` stored in tenths; it is only read by
the periodic cleanup task. -/
structure CacheM (α : Type) where
  entries : List (String × CEntry α)
  max_size : ℕ
  cleanup_threshold : ℕ
  hits : ℕ
  misses : ℕ
  evictions : ℕ
  cleanups : ℕ
deriving DecidableEq

/-- First-match association lookup (Python dict lookup; keys are unique). -/
def alookup {β : Type} (k : String) : List (String × β) → Option β
  | [] => none
  | p :: l => if p.1 = k then some p.2 else alookup k l

/-- Python dict assignment `d[k] = v`: replace in place, else append. -/
def assocSet {β : Type} (l : List (String × β)) (k : String) (v : β) : List (String × β) :=
  if (alookup k l).isSome then l.map (fun p => if p.1 = k then (k, v) else p) else l ++ [(k, v)]

/-- Read an entry without touching it (used only to state properties). -/
def peek {α : Type} (c : CacheM α) (k : String) : Option (CEntry α) := alookup k c.entries

/-- Eviction key: primary `access_count`, secondary `last_access`
(the `key=lambda x: (x[1].access_count, x[1].last_access)` of `_evict_lru`). -/
def entryLe {α : Type} (p q : String × CEntry α) : Prop :=
  p.2.access_count < q.2.access_count ∨
    (p.2.access_count = q.2.access_count ∧ p.2.last_access ≤ q.2.last_access)

instance {α : Type} : DecidableRel (entryLe (α := α)) := fun p q => by
  unfold entryLe; exact inferInstance

instance {α : Type} : IsTotal (String × CEntry α) entryLe where
  total p q := by
    unfold entryLe
    rcases Nat.lt_trichotomy p.2.access_count q.2.access_count with h | h | h
    · exact Or.inl (Or.inl h)
    · rcases le_total p.2.last_access q.2.last_access with h2 | h2
      · exact Or.inl (Or.inr ⟨h, h2⟩)
      · exact Or.inr (Or.inr ⟨h.symm, h2⟩)
    · exact Or.inr (Or.inl h)

instance {α : Type} : IsTrans (String × CEntry α) entryLe where
  trans p q r hpq hqr := by
    unfold entryLe at hpq hqr ⊢
    rcases hpq with h1 | ⟨h1, h1'⟩ <;> rcases hqr with h2 | ⟨h2, h2'⟩
    · exact Or.inl (by omega)
    · exact Or.inl (by omega)
    · exact Or.inl (by omega)
    · exact Or.inr ⟨by omega, le_trans h1' h2'⟩

/-- `InMemoryCache._evict_lru`: stable-sort the entries by
`(access_count, last_access)` ascending (Python `sorted` is stable; so is
`insertionSort` for this total preorder), then delete the first
`max(1, len // 10)` keys. -/
def evict_lru {α : Type} (c : CacheM α) : CacheM α :=
  if c.entries.isEmpty then c
  else
    let sorted_items := List.insertionSort entryLe c.entries
    let remove_count := max 1 (c.entries.length / 10)
    let keys_to_remove := (sorted_items.take remove_count).map Prod.fst
    let kept := c.entries.filter (fun p => decide (p.1 ∉ keys_to_remove))
    { c with entries := kept, evictions := c.evictions + (c.entries.length - kept.length) }

/-- `InMemoryCache.set`: evict first when at capacity, then insert the fresh
entry at the most-recently-used end. -/
def cache_set {α : Type} (now : ℤ) (k : String) (v : α) (ttl : ℤ) (c : CacheM α) : CacheM α :=
  let c1 := if c.max_size ≤ c.entries.length then evict_lru c else c
  { c1 with entries := c1.entries.filter (fun p => decide (p.1 ≠ k)) ++
      [(k, { value := v, created_at := now, ttl := ttl, access_count := 0, last_access := now })] }

/-- `InMemoryCache.get`: expired entries are deleted and count as a miss; hits
update the access statistics and move the entry to the recently-used end. -/
def cache_get {α : Type} (now : ℤ) (k : String) (c : CacheM α) : Option α × CacheM α :=
  match alookup k c.entries with
  | some e =>
    if e.expired now then
      let ents := c.entries.filter (fun p => decide (p.1 ≠ k))
      let c' := { c with entries := ents, evictions := c.evictions + 1, misses := c.misses + 1 }
      (none, c')
    else
      let e' := { e with access_count := e.access_count + 1, last_access := now }
      let ents := c.entries.filter (fun p => decide (p.1 ≠ k)) ++ [(k, e')]
      let c' := { c with entries := ents, hits := c.hits + 1 }
      (some e.value, c')
  | none => (none, { c with misses := c.misses + 1 })

/-- `InMemoryCache.delete`. -/
def cache_delete {α : Type} (k : String) (c : CacheM α) : Bool × CacheM α :=
  if (alookup k c.entries).isSome then
    (true, { c with entries := c.entries.filter (fun p => decide (p.1 ≠ k)) })
  else (false, c)

/-- `InMemoryCache.delete_pattern`: delete every key containing the substring. -/
def delete_pattern {α : Type} (pat : String) (c : CacheM α) : CacheM α :=
  { c with entries := c.entries.filter (fun p => !strContains p.1 pat) }

/-! ### Cache persistence (`_backup_to_disk`), as a file-operation trace -/

/-- Directory and file constants of the source. -/
def DATA_DIR : String := "utility_data"

/-- `os.path.join(DATA_DIR, "cache_backup.json")`. -/
def CACHE_BACKUP_FILE : String := "utility_data/cache_backup.json"

/-- File-system operations `_backup_to_disk` can perform. -/
inductive FsOp (α : Type) where
  | makedirs (path : String)
  | openWrite (path : String)
  | writeJson (path : String) (entries : List (String × CEntry α))
      (stats : ℕ × ℕ × ℕ × ℕ) (backup_time : ℤ)
  | rename (src dst : String)
deriving DecidableEq

/-- Whether an operation is a rename. -/
def FsOp.isRename {α : Type} : FsOp α → Bool
  | .rename _ _ => true
  | _ => false

/-- File-operation trace of `InMemoryCache._backup_to_disk`:
`os.makedirs(DATA_DIR, exist_ok=True)`, then
`aiofiles.open(CACHE_BACKUP_FILE, "w")` — the target path itself — then one
write of the serialized entries, stats and backup time. -/
def backup_to_disk {α : Type} (c : CacheM α) (now : ℤ) : List (FsOp α) :=
  [FsOp.makedirs DATA_DIR, FsOp.openWrite CACHE_BACKUP_FILE,
   FsOp.writeJson CACHE_BACKUP_FILE c.entries (c.hits, c.misses, c.evictions, c.cleanups) now]

/-- A 20-entry cache at capacity (`max_size = 20`), with pairwise distinct
access counts `0..19`. -/
def c7entry (i : ℕ) : String × CEntry String :=
  ("k" ++ natToStr i,
   { value := "v", created_at := 0, ttl := DEFAULT_CACHE_TTL, access_count := i, last_access := 0 })

/-- The concrete at-capacity cache used in the eviction counterexample. -/
def c7cache : CacheM String :=
  { entries := (List.range 20).map c7entry, max_size := 20, cleanup_threshold := 8,
    hits := 0, misses := 0, evictions := 0, cleanups := 0 }

/-- C7 counterexample: a `set` on the full 20-entry cache evicts
`max(1, 20 // 10) = 2` entries — both `k0` (access count 0, the lex-least) and
`k1` (access count 1) are gone, so the eviction does not remove only "the"
entry with the lowest access count; 19 = 20 - 2 + 1 entries remain. -/
theorem cache_eviction_counterexample :
    (cache_set 100 "new" "v" 3000 c7cache).entries.length = 19 ∧
    peek (cache_set 100 "new" "v" 3000 c7cache) "k0" = none ∧
    peek (cache_set 100 "new" "v" 3000 c7cache) "k1" = none ∧
    peek (cache_set 100 "new" "v" 3000 c7cache) "k2" ≠ none ∧
    peek (cache_set 100 "new" "v" 3000 c7cache) "new" ≠ none := by
  decide

/-- C8 counterexample: a concrete snapshot write is three operations — make the
directory, open the TARGET file for writing, write the JSON — with no temporary
file and no rename anywhere in the trace. -/
theorem backup_no_rename_counterexample :
    backup_to_disk c7cache 50 =
      [FsOp.makedirs "utility_data", FsOp.openWrite "utility_data/cache_backup.json",
       FsOp.writeJson "utility_data/cache_backup.json" c7cache.entries (0, 0, 0, 0) 50] ∧
    (backup_to_disk c7cache 50).all (fun op => !op.isRename) = true := by
  decide

/-- C8 (amended): every snapshot write opens the target path directly and
writes the serialized cache in place; the trace never contains a rename, so the
write is not an atomic temp-file replace. -/
theorem backup_writes_target_directly {α : Type} (c : CacheM α) (now : ℤ) :
    backup_to_disk c now =
      [FsOp.makedirs DATA_DIR, FsOp.openWrite CACHE_BACKUP_FILE,
       FsOp.writeJson CACHE_BACKUP_FILE c.entries (c.hits, c.misses, c.evictions, c.cleanups) now] ∧
    ∀ op ∈ backup_to_disk c now, op.isRename = false := by
  refine ⟨rfl, ?_⟩
  intro op hop
  unfold backup_to_disk at hop
  simp only [List.mem_cons, List.not_mem_nil, or_false] at hop
  rcases hop with h | h | h <;> subst h <;> rfl

/-! ### Association-list lemmas -/

theorem alookup_eq_none_iff {β : Type} (k : String) (l : List (String × β)) :
    alookup k l = none ↔ ∀ p ∈ l, p.1 ≠ k := by
  induction l with
  | nil => simp [alookup]
  | cons p l ih =>
    simp only [alookup]
    by_cases h : p.1 = k
    · rw [if_pos h]
      constructor
      · intro hc; exact absurd hc (by simp)
      · intro hall; exact absurd h (hall p (List.mem_cons_self _ _))
    · rw [if_neg h, ih]
      constructor
      · intro hall q hq
        rcases List.mem_cons.mp hq with rfl | hq'
        · exact h
        · exact hall q hq'
      · intro hall q hq; exact hall q (List.mem_cons_of_mem _ hq)

theorem alookup_mem {β : Type} {k : String} {v : β} {l : List (String × β)}
    (h : alookup k l = some v) : (k, v) ∈ l := by
  induction l with
  | nil => simp [alookup] at h
  | cons p l ih =>
    simp only [alookup] at h
    by_cases hk : p.1 = k
    · rw [if_pos hk] at h
      have hv : p.2 = v := Option.some.inj h
      have hp : p = (k, v) := by
        cases p; simp only at hk hv; simp [hk, hv]
      exact hp ▸ List.mem_cons_self _ _
    · rw [if_neg hk] at h
      exact List.mem_cons_of_mem _ (ih h)

theorem alookup_ne_none_of_mem {β : Type} {p : String × β} {l : List (String × β)}
    (hp : p ∈ l) : alookup p.1 l ≠ none := by
  induction l with
  | nil => simp at hp
  | cons q l ih =>
    simp only [alookup]
    by_cases hk : q.1 = p.1
    · simp [hk]
    · rw [if_neg hk]
      rcases List.mem_cons.mp hp with rfl | hp'
      · exact absurd rfl hk
      · exact ih hp'

theorem alookup_append_of_none {β : Type} (k : String) (l1 l2 : List (String × β))
    (h : alookup k l1 = none) : alookup k (l1 ++ l2) = alookup k l2 := by
  induction l1 with
  | nil => rfl
  | cons p l1 ih =>
    rw [List.cons_append]
    simp only [alookup] at h ⊢
    by_cases hk : p.1 = k
    · rw [if_pos hk] at h; exact absurd h (by simp)
    · rw [if_neg hk] at h ⊢
      exact ih h

theorem alookup_filter_notmem {β : Type} (R : List String) (l : List (String × β)) (k : String) :
    alookup k (l.filter (fun p => decide (p.1 ∉ R))) =
      if k ∉ R then alookup k l else none := by
  induction l with
  | nil => simp [alookup]
  | cons p l ih =>
    by_cases hq : p.1 ∉ R
    · rw [List.filter_cons_of_pos (by simpa using hq)]
      by_cases hk : p.1 = k
      · subst hk; simp [alookup, hq]
      · simp only [alookup]
        rw [if_neg hk, if_neg hk, ih]
    · rw [List.filter_cons_of_neg (by simpa using hq)]
      rw [ih]
      by_cases hkR : k ∉ R
      · rw [if_pos hkR, if_pos hkR]
        have hk2 : ¬ p.1 = k := fun hcontra => hkR (hcontra ▸ (not_not.mp hq))
        simp only [alookup]
        rw [if_neg hk2]
      · rw [if_neg hkR, if_neg hkR]

theorem alookup_filter_nekey {β : Type} (k0 : String) (l : List (String × β)) (k : String) :
    alookup k (l.filter (fun p => decide (p.1 ≠ k0))) =
      if k ≠ k0 then alookup k l else none := by
  induction l with
  | nil => simp [alookup]
  | cons p l ih =>
    by_cases hq : p.1 ≠ k0
    · rw [List.filter_cons_of_pos (by simpa using hq)]
      by_cases hk : p.1 = k
      · subst hk; simp [alookup, hq]
      · simp only [alookup]
        rw [if_neg hk, if_neg hk, ih]
    · rw [List.filter_cons_of_neg (by simpa using hq)]
      rw [ih]
      by_cases hkk : k ≠ k0
      · rw [if_pos hkk, if_pos hkk]
        have hp0 : p.1 = k0 := not_not.mp hq
        have hk2 : ¬ p.1 = k := by
          intro hcontra
          exact hkk (by rw [← hcontra, hp0])
        simp only [alookup]
        rw [if_neg hk2]
      · rw [if_neg hkk, if_neg hkk]

theorem alookup_append_eq_none_left {β : Type} {k : String} {l1 l2 : List (String × β)}
    (h : alookup k (l1 ++ l2) = none) : alookup k l1 = none := by
  induction l1 with
  | nil => rfl
  | cons p l1 ih =>
    rw [List.cons_append] at h
    simp only [alookup] at h ⊢
    by_cases hk : p.1 = k
    · rw [if_pos hk] at h; exact absurd h (by simp)
    · rw [if_neg hk] at h ⊢
      exact ih h

theorem alookup_singleton_ne {β : Type} {k k' : String} (v : β) (h : k' ≠ k) :
    alookup k [(k', v)] = none := by
  simp only [alookup]
  rw [if_neg h]

theorem evict_lru_entries {α : Type} (c : CacheM α) (h : ¬ c.entries.isEmpty) :
    (evict_lru c).entries = c.entries.filter (fun p => decide (p.1 ∉
      ((List.insertionSort entryLe c.entries).take
        (max 1 (c.entries.length / 10))).map Prod.fst)) := by
  unfold evict_lru
  rw [if_neg h]

theorem cache_set_entries_at_cap {α : Type} (c : CacheM α) (now : ℤ) (k : String) (v : α)
    (ttl : ℤ) (hcap : c.max_size ≤ c.entries.length) :
    (cache_set now k v ttl c).entries =
      (evict_lru c).entries.filter (fun p => decide (p.1 ≠ k)) ++
        [(k, { value := v, created_at := now, ttl := ttl, access_count := 0,
               last_access := now })] := by
  unfold cache_set
  rw [if_pos hcap]

/-- C7 (amended): when a fresh key is set on a cache at capacity, the eviction
removes exactly the `max(1, n // 10)` entries least in the lexicographic
`(access_count, last_access)` order: the surviving entry count is
`n - max(1, n // 10) + 1`; every evicted entry precedes every surviving one in
that order; and an entry that is least among all entries — lowest access count,
ties broken by least recent access — is always among the evicted. -/
theorem cache_eviction_policy {α : Type} (c : CacheM α) (now : ℤ) (k : String) (v : α) (ttl : ℤ)
    (hcap : c.max_size ≤ c.entries.length)
    (hpos : 1 ≤ c.entries.length)
    (hk : alookup k c.entries = none)
    (hnd : (c.entries.map Prod.fst).Nodup) :
    (cache_set now k v ttl c).entries.length
        = c.entries.length - max 1 (c.entries.length / 10) + 1 ∧
    (∀ p ∈ c.entries, peek (cache_set now k v ttl c) p.1 = none →
      ∀ q ∈ c.entries, peek (cache_set now k v ttl c) q.1 ≠ none → entryLe p q) ∧
    (∃ p ∈ c.entries, peek (cache_set now k v ttl c) p.1 = none ∧
      ∀ q ∈ c.entries, entryLe p q) := by
  have hne : ¬ c.entries.isEmpty := by
    cases hcl : c.entries with
    | nil => rw [hcl] at hpos; simp at hpos
    | cons a l => simp [hcl]
  have hev := evict_lru_entries c hne
  have hperm : List.Perm (List.insertionSort entryLe c.entries) c.entries :=
    List.perm_insertionSort _ _
  have hsorted : List.Sorted entryLe (List.insertionSort entryLe c.entries) :=
    List.sorted_insertionSort _ _
  have hset := cache_set_entries_at_cap c now k v ttl hcap
  set S := List.insertionSort entryLe c.entries with hS
  set n := c.entries.length with hn
  set rc := max 1 (n / 10) with hrc
  set R := (S.take rc).map Prod.fst with hR
  have hSlen : S.length = n := hperm.length_eq
  have hrc1 : 1 ≤ rc := le_max_left _ _
  have hrcle : rc ≤ n := by
    have h10 : n / 10 ≤ n := Nat.div_le_self _ _
    omega
  have hndS : (S.map Prod.fst).Nodup := ((hperm.map Prod.fst).nodup_iff).mpr hnd
  have hsplit : S.take rc ++ S.drop rc = S := List.take_append_drop _ _
  have hpw : ∀ p ∈ S.take rc, ∀ q ∈ S.drop rc, entryLe p q := by
    have hp : List.Pairwise entryLe S := hsorted
    rw [← hsplit] at hp
    exact (List.pairwise_append.mp hp).2.2
  have htakeR : ∀ p ∈ S.take rc, p.1 ∈ R := by
    intro p hp
    rw [hR]
    exact List.mem_map_of_mem Prod.fst hp
  have hdisj : ∀ q ∈ S.drop rc, q.1 ∉ R := by
    intro q hq hqR
    rw [hR] at hqR
    have h1 : S.map Prod.fst = (S.take rc).map Prod.fst ++ (S.drop rc).map Prod.fst := by
      rw [← List.map_append, hsplit]
    rw [h1] at hndS
    exact (List.nodup_append.mp hndS).2.2 hqR (List.mem_map_of_mem Prod.fst hq)
  have hkept_ne : ∀ p ∈ c.entries, p.1 ≠ k := (alookup_eq_none_iff k c.entries).mp hk
  have hkfilter : (c.entries.filter (fun p => decide (p.1 ∉ R))).filter
      (fun p => decide (p.1 ≠ k)) = c.entries.filter (fun p => decide (p.1 ∉ R)) := by
    apply List.filter_eq_self.mpr
    intro p hp
    simp only [decide_eq_true_eq]
    exact hkept_ne p (List.mem_filter.mp hp).1
  rw [hev, hkfilter] at hset
  -- length of the kept part
  have htakef : (S.take rc).filter (fun p => decide (p.1 ∉ R)) = [] := by
    apply List.filter_eq_nil_iff.mpr
    intro p hp
    simp only [decide_eq_true_eq, Decidable.not_not]
    exact htakeR p hp
  have hdropf : (S.drop rc).filter (fun p => decide (p.1 ∉ R)) = S.drop rc := by
    apply List.filter_eq_self.mpr
    intro p hp
    simp only [decide_eq_true_eq]
    exact hdisj p hp
  have hSfilter : S.filter (fun p => decide (p.1 ∉ R)) = S.drop rc := by
    conv_lhs => rw [← hsplit]
    rw [List.filter_append, htakef, hdropf, List.nil_append]
  have hkeptlen : (c.entries.filter (fun p => decide (p.1 ∉ R))).length = n - rc := by
    have h1 : (S.filter (fun p => decide (p.1 ∉ R))).length
        = (c.entries.filter (fun p => decide (p.1 ∉ R))).length :=
      (hperm.filter _).length_eq
    rw [← h1, hSfilter, List.length_drop, hSlen]
  -- membership of original entries in the result
  have hpeek_none_iff : ∀ p ∈ c.entries,
      (peek (cache_set now k v ttl c) p.1 = none ↔ p.1 ∈ R) := by
    intro p hp
    show alookup p.1 (cache_set now k v ttl c).entries = none ↔ p.1 ∈ R
    rw [hset]
    constructor
    · intro hnone
      by_contra hpR
      have hmem : p ∈ c.entries.filter (fun q => decide (q.1 ∉ R)) :=
        List.mem_filter.mpr ⟨hp, by simpa using hpR⟩
      exact alookup_ne_none_of_mem hmem (alookup_append_eq_none_left hnone)
    · intro hpR
      have hsub : alookup p.1 (c.entries.filter (fun q => decide (q.1 ∉ R))) = none := by
        rw [alookup_filter_notmem]
        rw [if_neg (by simpa using hpR)]
      rw [alookup_append_of_none _ _ _ hsub]
      exact alookup_singleton_ne _ (fun hcontra => hkept_ne p hp hcontra.symm)
  refine ⟨?_, ?_, ?_⟩
  · -- exactly max(1, n // 10) entries evicted, one fresh entry inserted
    rw [hset, List.length_append, hkeptlen]
    simp
  · -- every evicted entry is (access_count, last_access)-below every survivor
    intro p hp hpnone q hq hqsome
    have hpR : p.1 ∈ R := (hpeek_none_iff p hp).mp hpnone
    have hqR : q.1 ∉ R := fun hqR => hqsome ((hpeek_none_iff q hq).mpr hqR)
    have hpS : p ∈ S := hperm.mem_iff.mpr hp
    have hqS : q ∈ S := hperm.mem_iff.mpr hq
    have hptake : p ∈ S.take rc := by
      rcases List.mem_append.mp (by rw [hsplit]; exact hpS) with h | h
      · exact h
      · exact absurd hpR (hdisj p h)
    have hqdrop : q ∈ S.drop rc := by
      rcases List.mem_append.mp (by rw [hsplit]; exact hqS) with h | h
      · exact absurd (htakeR q h) hqR
      · exact h
    exact hpw p hptake q hqdrop
  · -- the least entry is always evicted
    obtain ⟨s0, S', hS0⟩ : ∃ s0 S', S = s0 :: S' := by
      cases hSc : S with
      | nil => rw [hSc] at hSlen; simp at hSlen; omega
      | cons a l => exact ⟨a, l, rfl⟩
    have hs0S : s0 ∈ S := by rw [hS0]; exact List.mem_cons_self _ _
    have hs0c : s0 ∈ c.entries := hperm.mem_iff.mp hs0S
    have hs0take : s0 ∈ S.take rc := by
      have hrceq : rc = (rc - 1) + 1 := by omega
      rw [hrceq, hS0, List.take_succ_cons]
      exact List.mem_cons_self _ _
    refine ⟨s0, hs0c, (hpeek_none_iff s0 hs0c).mpr (htakeR s0 hs0take), ?_⟩
    intro q hq
    have hqS : q ∈ S := hperm.mem_iff.mpr hq
    rw [hS0] at hqS
    rcases List.mem_cons.mp hqS with rfl | hq'
    · exact Or.inr ⟨rfl, le_refl _⟩
    · have hs : List.Sorted entryLe (s0 :: S') := hS0 ▸ hsorted
      exact (List.pairwise_cons.mp hs).1 q hq'

/-- Witness for the amended C7 at the concrete 20-entry cache. -/
theorem cache_eviction_policy_witness :
    (cache_set 100 "new" "v" 3000 c7cache).entries.length
        = c7cache.entries.length - max 1 (c7cache.entries.length / 10) + 1 ∧
    (∀ p ∈ c7cache.entries, peek (cache_set 100 "new" "v" 3000 c7cache) p.1 = none →
      ∀ q ∈ c7cache.entries, peek (cache_set 100 "new" "v" 3000 c7cache) q.1 ≠ none →
        entryLe p q) ∧
    (∃ p ∈ c7cache.entries, peek (cache_set 100 "new" "v" 3000 c7cache) p.1 = none ∧
      ∀ q ∈ c7cache.entries, entryLe p q) :=
  cache_eviction_policy c7cache 100 "new" "v" 3000 (by decide) (by decide) (by decide) (by decide)

/-! ### Data model of the data-access layer

Python values stored in cache entries and user-record dicts. -/

deriving instance DecidableEq for Except

/-- A Python value as it occurs in this module's dicts. -/
inductive PyVal where
  | s (v : String)
  | i (v : ℤ)
  | l (v : List String)
deriving DecidableEq

/-- A Python dict with string keys, in insertion order. -/
abbrev PyDict := List (String × PyVal)

/-- The `UserData` dataclass. -/
structure UserData where
  user_id : String
  name : String
  inventory_name : String
  user_type : String
  health : String := "100"
  coins : ℤ := 0
  items : List String := []
  outfits : List String := []
  physical_status : List String := []
  corruption : ℤ := 0
deriving DecidableEq

/-- `UserData.to_dict`: note the key `"type"` for the field `user_type`. -/
def UserData.to_dict (u : UserData) : PyDict :=
  [("user_id", .s u.user_id), ("name", .s u.name), ("inventory_name", .s u.inventory_name),
   ("type", .s u.user_type), ("health", .s u.health), ("coins", .i u.coins),
   ("items", .l u.items), ("outfits", .l u.outfits),
   ("physical_status", .l u.physical_status), ("corruption", .i u.corruption)]

/-- The keyword parameters `UserData.__init__` accepts (the dataclass fields). -/
def userDataFieldNames : List String :=
  ["user_id", "name", "inventory_name", "user_type", "health", "coins",
   "items", "outfits", "physical_status", "corruption"]

/-- String value of a dict key, if present with that type. -/
def getS (kw : PyDict) (k : String) : Option String :=
  match alookup k kw with
  | some (.s v) => some v
  | _ => none

/-- Int value of a dict key, if present with that type. -/
def getI (kw : PyDict) (k : String) : Option ℤ :=
  match alookup k kw with
  | some (.i v) => some v
  | _ => none

/-- List value of a dict key, if present with that type. -/
def getL (kw : PyDict) (k : String) : Option (List String) :=
  match alookup k kw with
  | some (.l v) => some v
  | _ => none

/-- Model of Python `UserData(**data)`: a keyword that is not a declared field
name raises `TypeError` (this is what happens to the cached metadata dicts,
which carry the key `"type"` while the field is named `user_type`), and so does
a missing required field. Dataclasses do not type-check values; the dicts this
module builds are well-typed, so a wrongly-typed value is also treated as the
error case. -/
def userDataOfKwargs (kw : PyDict) : Except Unit UserData :=
  if kw.all (fun p => decide (p.1 ∈ userDataFieldNames)) then
    match getS kw "user_id", getS kw "name", getS kw "inventory_name", getS kw "user_type" with
    | some uid, some nm, some inv, some ty =>
      .ok { user_id := uid, name := nm, inventory_name := inv, user_type := ty,
            health := (getS kw "health").getD "100", coins := (getI kw "coins").getD 0,
            items := (getL kw "items").getD [], outfits := (getL kw "outfits").getD [],
            physical_status := (getL kw "physical_status").getD [],
            corruption := (getI kw "corruption").getD 0 }
    | _, _, _, _ => .error ()
  else .error ()

/-- Values this module stores in the cache: a single user-record dict
(`user_data:<id>`), a dict of dicts (`user_metadata`, `all_user_data`), or a
plain string (`admin_id`). -/
inductive CVal where
  | dict (d : PyDict)
  | dictMap (m : List (String × PyDict))
  | str (v : String)
deriving DecidableEq

/-- Python truthiness of a cached value (`if cached_data:`). -/
def CVal.truthy : CVal → Bool
  | .dict d => !d.isEmpty
  | .dictMap m => !m.isEmpty
  | .str v => !v.data.isEmpty

/-! ### GoogleSheetsClient -/

/-- 3600 s connection refresh interval, in tenths of a second. -/
def REFRESH_INTERVAL : ℤ := 36000

/-- `self._max_connection_attempts`. -/
def MAX_CONNECTION_ATTEMPTS : ℕ := 3

/-- Outcomes of the external network calls, indexed per attempt for the sheet
opens. `openOk i` is the outcome of the `i`-th worksheet-open attempt;
`getOk` / `updateOk` / `cellOk` are the outcomes of the data calls
(`values_batch_get` / `values_batch_update` / `acell`). -/
structure Oracle where
  openOk : ℕ → Bool
  getOk : Bool
  updateOk : Bool
  cellOk : Bool

/-- Mutable state of `GoogleSheetsClient`. `sleeps` logs the backoff sleeps in
seconds (`2 ** connection_attempts`); `open_attempts` / `data_attempts` /
`update_attempts` are ghost counters of how many worksheet-open, data-read and
data-write network calls were attempted. -/
structure SheetsState where
  client : Bool
  inv_sheet : Bool
  meta_sheet : Bool
  last_refresh : ℤ
  conn_attempts : ℕ
  api_calls : ℕ
  successful_calls : ℕ
  failed_calls : ℕ
  sleeps : List ℕ
  open_attempts : ℕ
  data_attempts : ℕ
  update_attempts : ℕ
deriving DecidableEq

/-- `GoogleSheetsClient._ensure_connection`: force a session reset after the
refresh interval; (re)authorize when there is no client, which also resets the
connection-attempt counter. Credential loading and `gspread.authorize` are
modelled as succeeding. -/
def ensure_connection (now : ℤ) (st : SheetsState) : SheetsState :=
  let st := if now - st.last_refresh > REFRESH_INTERVAL then
      { st with client := false, inv_sheet := false, meta_sheet := false }
    else st
  if st.client then st
  else { st with client := true, last_refresh := now, conn_attempts := 0 }

/-- `GoogleSheetsClient.get_sheets`: ensure the connection, then open whichever
worksheet handles are missing (modelled as one combined open attempt consulting
the oracle); on failure invalidate the session, bump the attempt counter and,
while it is below `MAX_CONNECTION_ATTEMPTS`, sleep `2 ** attempts` seconds and
retry. The recursion is bounded by `fuel` because `ensure_connection` resets
the attempt counter whenever it re-authorizes, so the source can retry without
bound; running out of fuel is reported as failure. Returns (success?, state). -/
def get_sheets (o : Oracle) : ℕ → ℤ → SheetsState → Bool × SheetsState
  | 0, _, st => (false, st)
  | fuel + 1, now, st =>
    let st := ensure_connection now st
    if st.inv_sheet && st.meta_sheet then (true, st)
    else
      let ok := o.openOk st.open_attempts
      let st := { st with open_attempts := st.open_attempts + 1 }
      if ok then (true, { st with inv_sheet := true, meta_sheet := true })
      else
        let st := { st with client := false, inv_sheet := false, meta_sheet := false,
                            conn_attempts := st.conn_attempts + 1 }
        if st.conn_attempts < MAX_CONNECTION_ATTEMPTS then
          get_sheets o fuel now { st with sleeps := st.sleeps ++ [2 ^ st.conn_attempts] }
        else (false, st)

/-- Fuel passed to `get_sheets` by the data-access layer calls below. -/
def SHEETS_FUEL : ℕ := 4

/-- The world the data-access layer acts on: the cache, the two sheet ranges
(`러너 시트!B14:H48` as `inv_rows`, `메타데이터시트!A3:D37` as `meta_rows`, the
admin cell `B2` as `meta_b2`), the sheets-client state, the network oracle and
the current time. The rate limiter is orthogonal to these claims: `acquire`
always eventually returns and is not threaded through this state. -/
structure World where
  cache : CacheM CVal
  inv_rows : List (List String)
  meta_rows : List (List String)
  meta_b2 : String
  sheets : SheetsState
  oracle : Oracle
  now : ℤ

/-- Stats increments of a successful call (`api_calls`, `successful_calls`). -/
def countSuccess (sst : SheetsState) : SheetsState :=
  { sst with api_calls := sst.api_calls + 1, successful_calls := sst.successful_calls + 1 }

/-- Stats increments of a failed call (`api_calls`, `failed_calls`). -/
def countFailure (sst : SheetsState) : SheetsState :=
  { sst with api_calls := sst.api_calls + 1, failed_calls := sst.failed_calls + 1 }

/-- `sheets_client.batch_get(["러너 시트!B14:H48"])`: one rate-limited call
returning the inventory rows; on any failure (including `get_sheets`) the
`except` branch counts a failed call and re-raises. -/
def batch_get_inventory (w : World) : Except Unit (List (List String)) × World :=
  let r := get_sheets w.oracle SHEETS_FUEL w.now w.sheets
  if r.1 then
    let sst := { r.2 with data_attempts := r.2.data_attempts + 1 }
    if w.oracle.getOk then (.ok w.inv_rows, { w with sheets := countSuccess sst })
    else (.error (), { w with sheets := countFailure sst })
  else (.error (), { w with sheets := countFailure r.2 })

/-- `sheets_client.batch_get(["메타데이터시트!A3:D37", "러너 시트!B14:B48"])` as
issued by `get_cached_metadata`: one rate-limited call (one `api_calls`
increment) returning the metadata rows and the inventory-name column. The name
column is column 0 of the inventory rows; the sheets API omits empty cells,
which the source's `if row` guard then skips. -/
def batch_get_meta (w : World) : Except Unit (List (List String) × List (List String)) × World :=
  let r := get_sheets w.oracle SHEETS_FUEL w.now w.sheets
  if r.1 then
    let sst := { r.2 with data_attempts := r.2.data_attempts + 1 }
    if w.oracle.getOk then
      let names := w.inv_rows.map (fun row => (row.take 1).filter (fun s => !s.data.isEmpty))
      (.ok (w.meta_rows, names), { w with sheets := countSuccess sst })
    else (.error (), { w with sheets := countFailure sst })
  else (.error (), { w with sheets := countFailure r.2 })

/-- `sheets_client.batch_update(updates)`: each update targets the single row
`러너 시트!B{14+idx}:H{14+idx}`, carried here as the row index `idx` into
`inv_rows` together with the row values. Returns `False` on any failure
(exceptions are swallowed), `True` after the write is applied. -/
def batch_update_rows (updates : List (ℕ × List String)) (w : World) : Bool × World :=
  let r := get_sheets w.oracle SHEETS_FUEL w.now w.sheets
  if r.1 then
    let sst := { r.2 with update_attempts := r.2.update_attempts + 1 }
    if w.oracle.updateOk then
      let rows := updates.foldl (fun rs p => rs.set p.1 p.2) w.inv_rows
      (true, { w with inv_rows := rows, sheets := countSuccess sst })
    else (false, { w with sheets := countFailure sst })
  else (false, { w with sheets := countFailure r.2 })

/-- `sheets_client.get_single_cell("메타데이터시트", "B2")`: returns the cell
value, or `None` on any failure (exceptions are swallowed). -/
def get_single_cell (w : World) : Option String × World :=
  let r := get_sheets w.oracle SHEETS_FUEL w.now w.sheets
  if r.1 then
    let sst := { r.2 with data_attempts := r.2.data_attempts + 1 }
    if w.oracle.cellOk then (some w.meta_b2, { w with sheets := countSuccess sst })
    else (none, { w with sheets := countFailure sst })
  else (none, { w with sheets := countFailure r.2 })

/-! ### DataAccessLayer -/

/-- Natural-number association lookup (for the `inventory_name_dict`). -/
def nlookup {β : Type} (k : ℕ) : List (ℕ × β) → Option β
  | [] => none
  | p :: l => if p.1 = k then some p.2 else nlookup k l

/-- `{i: row[0].strip() for i, row in enumerate(inventory_names) if row}`. -/
def buildNameDict (rows : List (List String)) : List (ℕ × String) :=
  (rows.enum.filter (fun p => !p.2.isEmpty)).map (fun p => (p.1, strTrim (p.2.getD 0 "")))

/-- One iteration of the metadata-processing loop of `get_cached_metadata`:
skip short rows and rows without an id; resolve the inventory name through the
name dictionary with the source's mismatch fallback; mark admins;
`user_mapping[user_id] = ...`. -/
def metaRowStep (nameDict : List (ℕ × String)) (acc : List (String × UserData))
    (p : ℕ × List String) : List (String × UserData) :=
  let idx := p.1
  let row := p.2
  if row.length < 4 || (row.getD 1 "").data.isEmpty then acc
  else
    let name := strTrim (row.getD 0 "")
    let user_id := strTrim (row.getD 1 "")
    let can_give := strUpper (strTrim (row.getD 2 "")) == "Y"
    let can_revoke := strUpper (strTrim (row.getD 3 "")) == "Y"
    let inv0 := (nlookup idx nameDict).getD name
    let inventory_name :=
      if name ≠ inv0 ∧ inv0 ≠ "" then
        if (nameDict.find? (fun q => q.2 == name)).isSome then name else inv0
      else inv0
    let ud : UserData :=
      { user_id := user_id, name := name, inventory_name := inventory_name,
        user_type := if can_give && can_revoke then "admin" else "user" }
    assocSet acc user_id ud

/-- The metadata-processing loop of `get_cached_metadata`
(`for i, row in enumerate(meta_range)`). -/
def buildUserMapping (meta_range : List (List String)) (nameDict : List (ℕ × String)) :
    List (String × UserData) :=
  meta_range.enum.foldl (metaRowStep nameDict) []

/-- The cache-hit path of `get_cached_metadata`: rebuild `UserData` objects with
`UserData(**data)` from the cached dicts. Because `to_dict` stores the key
`"type"` while the field is `user_type`, `userDataOfKwargs` reports the
`TypeError` this raises in Python. -/
def convertCachedMeta (m : List (String × PyDict)) : Except Unit (List (String × UserData)) :=
  m.foldr (fun p acc =>
    match userDataOfKwargs p.2, acc with
    | .ok u, .ok l => .ok ((p.1, u) :: l)
    | _, _ => .error ()) (.ok [])

/-- `get_cached_metadata`: on a truthy cache hit, convert the cached dicts back
to `UserData` (which raises, see `convertCachedMeta`; a cached value of a shape
other than a dict of dicts likewise raises in Python when `.items()` or the
attribute access in the caller is reached — both surface as the `.error` case
to the callers, all of which catch it). On a miss, fetch both metadata ranges
in one batched call, build the mapping, cache it as dicts with `to_dict`, and
return the freshly built mapping; fetch failures are caught and yield `{}`. -/
def get_cached_metadata (w : World) : Except Unit (List (String × UserData)) × World :=
  let g := cache_get w.now "user_metadata" w.cache
  let w1 := { w with cache := g.2 }
  match g.1 with
  | some v =>
    if v.truthy then
      match v with
      | .dictMap m => (convertCachedMeta m, w1)
      | _ => (.error (), w1)
    else fetchMetadata w1
  | none => fetchMetadata w1
where
  /-- The fetch-and-cache path inside `get_cached_metadata`'s `try`. -/
  fetchMetadata (w : World) : Except Unit (List (String × UserData)) × World :=
    match batch_get_meta w with
    | (.error _, w2) => (.ok [], w2)
    | (.ok (meta_range, inventory_names), w2) =>
      let nameDict := buildNameDict inventory_names
      let mapping := buildUserMapping meta_range nameDict
      let cval := CVal.dictMap (mapping.map (fun p => (p.1, p.2.to_dict)))
      let w3 := { w2 with cache := cache_set w2.now "user_metadata" cval LONG_CACHE_TTL w2.cache }
      (.ok mapping, w3)

/-- The row-parsing dict built by `get_batch_user_data` for one inventory row
(keys in source order; `coins` goes through the digit-gated parse, `corruption`
through `int()` with `ValueError` handled). -/
def parseRowToDict (info : UserData) (target_name : String) (row : List String) : PyDict :=
  [("user_id", .s info.user_id), ("name", .s info.name), ("inventory_name", .s target_name),
   ("health", .s (if (row.getD 1 "").data.isEmpty then "100" else strTrim (row.getD 1 ""))),
   ("coins", .i (parseCoins (row.getD 2 ""))),
   ("physical_status", .l (splitCommaClean (row.getD 3 ""))),
   ("items", .l (splitCommaClean (row.getD 4 ""))),
   ("outfits", .l (splitCommaClean (row.getD 5 ""))),
   ("corruption", .i (parseIntStr (row.getD 6 "")))]

/-- `while len(row) < 7: row.append("")`. -/
def pad7 (row : List String) : List String := row ++ List.replicate (7 - row.length) ""

/-- Python truthiness of the `user_ids` parameter (`None` and `[]` are falsy). -/
def uidsTruthy : Option (List String) → Bool
  | none => false
  | some l => !l.isEmpty

/-- The body of the `for row in inventory_data` loop of `get_batch_user_data`:
skip empty rows and empty name cells, resolve the row's name against the
metadata, honour the `user_ids` filter, parse the row, write it through to the
per-id cache entry and record it in the result dict. -/
def batchRowStep (user_metadata : List (String × UserData))
    (user_ids : Option (List String))
    (acc : List (String × PyDict) × World) (row : List String) :
    List (String × PyDict) × World :=
  if row.isEmpty || (row.getD 0 "").data.isEmpty then acc
  else
    let row := pad7 row
    let target_name := strTrim (row.getD 0 "")
    match user_metadata.find? (fun p => strTrim p.2.inventory_name == target_name) with
    | none => acc
    | some pinfo =>
      let user_id := pinfo.2.user_id
      if uidsTruthy user_ids &&
          decide (user_id ∉ (user_ids.getD [])) then acc
      else
        let d := parseRowToDict pinfo.2 target_name row
        let c' := cache_set acc.2.now ("user_data:" ++ user_id) (CVal.dict d)
          SHORT_CACHE_TTL acc.2.cache
        (assocSet acc.1 user_id d, { acc.2 with cache := c' })

/-- `get_batch_user_data(user_ids)`: serve the aggregate from cache when no ids
were requested; otherwise resolve metadata, read the inventory range once,
parse each row into a record keyed by the id whose metadata `inventory_name`
matches the row's name cell, cache each record under `user_data:<id>`, and
cache the aggregate when no ids were requested. All failures are caught and
yield `{}`. A truthy cached aggregate of a different shape would be returned
as-is by Python and break every caller; it is modelled as the empty result. -/
def get_batch_user_data (user_ids : Option (List String)) (w : World) :
    List (String × PyDict) × World :=
  let hit :=
    if !uidsTruthy user_ids then
      let g := cache_get w.now "all_user_data" w.cache
      (g.1, { w with cache := g.2 })
    else (none, w)
  match hit with
  | (some v, w1) =>
    if v.truthy then
      match v with
      | .dictMap m => (m, w1)
      | _ => ([], w1)
    else fetchBatch user_ids w1
  | (none, w1) => fetchBatch user_ids w1
where
  /-- The fetch path inside `get_batch_user_data`'s `try`. -/
  fetchBatch (user_ids : Option (List String)) (w : World) :
      List (String × PyDict) × World :=
    match get_cached_metadata w with
    | (.error _, w2) => ([], w2)
    | (.ok user_metadata, w2) =>
      if user_metadata.isEmpty then ([], w2)
      else
        match batch_get_inventory w2 with
        | (.error _, w3) => ([], w3)
        | (.ok inventory_data, w3) =>
          let step := batchRowStep user_metadata user_ids
          let r := inventory_data.foldl step ([], w3)
          let w4 :=
            if !uidsTruthy user_ids then
              let ca := cache_set r.2.now "all_user_data" (CVal.dictMap r.1) SHORT_CACHE_TTL r.2.cache
              { r.2 with cache := ca }
            else r.2
          (r.1, w4)

/-- `get_user_inventory(user_id)`: per-id cache lookup, else a single-id batch
fetch. A truthy cached value that is not a record dict would be returned as-is
by Python; it is modelled as absent. -/
def get_user_inventory (user_id : String) (w : World) : Option PyDict × World :=
  let g := cache_get w.now ("user_data:" ++ user_id) w.cache
  let w1 := { w with cache := g.2 }
  match g.1 with
  | some v =>
    if v.truthy then
      match v with
      | .dict d => (some d, w1)
      | _ => (none, w1)
    else
      let r := get_batch_user_data (some [user_id]) w1
      (alookup user_id r.1, r.2)
  | none =>
    let r := get_batch_user_data (some [user_id]) w1
    (alookup user_id r.1, r.2)

/-- The optional field arguments of `update_user_inventory`, and the
`"field" in update_data` checks of `batch_update_user_inventory`. -/
structure UpdFields where
  health : Option String := none
  coins : Option ℤ := none
  physical_status : Option (List String) := none
  items : Option (List String) := none
  outfits : Option (List String) := none
  corruption : Option ℤ := none
deriving DecidableEq

/-- One step of the row-mutation block shared by both update functions (after
the `while len(row) < 7` padding): `if x is not None: row[i] = ...;
updated = True`. The fields map to cells as `health → row[1]`,
`coins → str(coins) → row[2]` (no clamp), `physical_status / items / outfits →
comma-joins → row[3..5]`, `corruption → str(max(0, corruption)) → row[6]`
(clamped at zero). -/
def optSet (l : List String) (b : Bool) (i : ℕ) (o : Option String) : List String × Bool :=
  match o with
  | some x => (l.set i x, true)
  | none => (l, b)

/-- The row-mutation block shared by both update functions, as the chain of its
six `optSet` steps in source order. -/
def applyRowUpdate (row : List String) (f : UpdFields) : List String × Bool :=
  let row := pad7 row
  let r1 := optSet row false 1 f.health
  let r2 := optSet r1.1 r1.2 2 (f.coins.map intStr)
  let r3 := optSet r2.1 r2.2 3 (f.physical_status.map joinComma)
  let r4 := optSet r3.1 r3.2 4 (f.items.map joinComma)
  let r5 := optSet r4.1 r4.2 5 (f.outfits.map joinComma)
  optSet r5.1 r5.2 6 (f.corruption.map (fun v => intStr (max 0 v)))

/-- `update_user_inventory(user_id, ...)`: resolve the id through the metadata,
re-read the current inventory rows, find the row whose name cell matches, merge
the supplied fields, and issue one `batch_update` for that row; on success
delete the per-id entry, the aggregate entry, and the display entries for that
id. Every exception (metadata `TypeError`, `batch_get` failure) is caught and
reported as `False`. -/
def update_user_inventory (user_id : String) (f : UpdFields) (w : World) : Bool × World :=
  match get_cached_metadata w with
  | (.error _, w1) => (false, w1)
  | (.ok user_metadata, w1) =>
    match alookup user_id user_metadata with
    | none => (false, w1)
    | some md =>
      let target_name := md.inventory_name
      match batch_get_inventory w1 with
      | (.error _, w2) => (false, w2)
      | (.ok inventory_data, w2) =>
        match inventory_data.findIdx?
            (fun row => !row.isEmpty && (strTrim (row.getD 0 "") == target_name)) with
        | none => (false, w2)
        | some target_row_idx =>
          let ru := applyRowUpdate (inventory_data.getD target_row_idx []) f
          if !ru.2 then (true, w2)
          else
            let bu := batch_update_rows [(target_row_idx, ru.1)] w2
            if bu.1 then
              let c1 := (cache_delete ("user_data:" ++ user_id) bu.2.cache).2
              let c2 := (cache_delete "all_user_data" c1).2
              let c3 := delete_pattern ("user_inventory_display:" ++ user_id) c2
              (true, { bu.2 with cache := c3 })
            else (false, bu.2)

/-- `batch_update_user_inventory(updates)`: resolve every id to a row index,
build one write request covering all resolved rows (rows of unresolved ids are
skipped), issue a single `batch_update`, and on success delete each affected
id's `user_data:`/`user_inventory_display:` entries plus the aggregate entry.
An empty dict returns `True` immediately; so does a request in which no id
resolves. Exceptions are caught and reported as `False`. -/
def batch_update_user_inventory (updates : List (String × UpdFields)) (w : World) :
    Bool × World :=
  if updates.isEmpty then (true, w)
  else
    match get_cached_metadata w with
    | (.error _, w1) => (false, w1)
    | (.ok metadata, w1) =>
      match batch_get_inventory w1 with
      | (.error _, w2) => (false, w2)
      | (.ok inventory_data, w2) =>
        let update_mapping := updates.foldl (fun acc p =>
          match alookup p.1 metadata with
          | none => acc
          | some md =>
            match inventory_data.findIdx?
                (fun row => !row.isEmpty && (strTrim (row.getD 0 "") == md.inventory_name)) with
            | none => acc
            | some idx => assocSet acc p.1 (idx : ℕ)) ([] : List (String × ℕ))
        let built := updates.foldl (fun (acc : List (ℕ × List String) × List String) p =>
          match alookup p.1 update_mapping with
          | none => acc
          | some row_idx =>
            let ru := applyRowUpdate (inventory_data.getD row_idx []) p.2
            (acc.1 ++ [(row_idx, ru.1)], acc.2 ++ [p.1])) ([], [])
        if built.1.isEmpty then (true, w2)
        else
          let bu := batch_update_rows built.1 w2
          if bu.1 then
            let c1 := built.2.foldl (fun c uid =>
              let ca := (cache_delete ("user_data:" ++ uid) c).2
              (cache_delete ("user_inventory_display:" ++ uid) ca).2) bu.2.cache
            let c2 := (cache_delete "all_user_data" c1).2
            (true, { bu.2 with cache := c2 })
          else (false, bu.2)

/-! ### Concrete worlds for the counterexamples and evaluations -/

/-- All network calls succeed. -/
def okOracle : Oracle := { openOk := fun _ => true, getOk := true, updateOk := true, cellOk := true }

/-- A freshly constructed `GoogleSheetsClient`. -/
def freshSheets : SheetsState :=
  { client := false, inv_sheet := false, meta_sheet := false, last_refresh := 0,
    conn_attempts := 0, api_calls := 0, successful_calls := 0, failed_calls := 0,
    sleeps := [], open_attempts := 0, data_attempts := 0, update_attempts := 0 }

/-- A freshly constructed `InMemoryCache` at the source's defaults. -/
def emptyCValCache : CacheM CVal :=
  { entries := [], max_size := 1000, cleanup_threshold := 8,
    hits := 0, misses := 0, evictions := 0, cleanups := 0 }

/-- The spec's example scenario: the store has the row
`("Alice", health=100, coins=10, "", "", "", corruption=0)` and the metadata
maps the display name `Alice` to id `42`; the cache is cold. -/
def aliceWorld : World :=
  { cache := emptyCValCache,
    inv_rows := [["Alice", "100", "10", "", "", "", "0"]],
    meta_rows := [["Alice", "42", "N", "N"]],
    meta_b2 := "admin",
    sheets := freshSheets,
    oracle := okOracle,
    now := 1000 }

/-! ### C1: clamping of written coins and corruption -/

theorem optSet_length (l : List String) (b : Bool) (i : ℕ) (o : Option String) :
    (optSet l b i o).1.length = l.length := by
  cases o <;> simp [optSet, List.length_set]

theorem pad7_length (row : List String) : 7 ≤ (pad7 row).length := by
  unfold pad7
  rw [List.length_append, List.length_replicate]
  omega

theorem applyRowUpdate_cells (row : List String) (f : UpdFields) :
    ((applyRowUpdate row f).1.getD 2 "" =
      (match f.coins with | some n => intStr n | none => (pad7 row).getD 2 "")) ∧
    ((applyRowUpdate row f).1.getD 6 "" =
      (match f.corruption with
       | some v => intStr (max 0 v) | none => (pad7 row).getD 6 "")) := by
  have h6 : 6 < (pad7 row).length := by have := pad7_length row; omega
  have h2 : 2 < (pad7 row).length := by have := pad7_length row; omega
  obtain ⟨fh, fc, fps, fit, fof, fco⟩ := f
  cases fh <;> cases fc <;> cases fps <;> cases fit <;> cases fof <;> cases fco <;>
    exact ⟨by simp [applyRowUpdate, optSet, List.getD_eq_getElem?_getD, List.getElem?_set,
        List.length_set, h2, h6],
      by simp [applyRowUpdate, optSet, List.getD_eq_getElem?_getD, List.getElem?_set,
        List.length_set, h2, h6]⟩

/-- C1 counterexample: `update_user_inventory("42", coins=-5)` on a record with
`coins = "3"` succeeds and stores the cell `"-5"` — the written coins value is
negative, not clamped to zero. -/
theorem coins_write_unclamped_counterexample :
    (update_user_inventory "42" { coins := some (-5) }
        { aliceWorld with inv_rows := [["Alice", "100", "3", "", "", "", "0"]] }).1 = true ∧
    (update_user_inventory "42" { coins := some (-5) }
        { aliceWorld with inv_rows := [["Alice", "100", "3", "", "", "", "0"]] }).2.inv_rows =
      [["Alice", "100", "-5", "", "", "", "0"]] ∧
    parseIntStr "-5" = -5 := by
  decide

/-- C1 (amended): whenever an update supplies a corruption value, both update
functions (whose written rows are built by `applyRowUpdate`) write
`str(max(0, v))` into the corruption cell, so the stored corruption is never
negative; the coins value, by contrast, is written unclamped as `str(n)`, and a
negative coins argument stores a negative cell, which only the digit-gated read
normalizes back to zero. -/
theorem corruption_clamped_coins_unclamped (row : List String) (f : UpdFields) :
    (∀ v : ℤ, f.corruption = some v →
      (applyRowUpdate row f).1.getD 6 "" = intStr (max 0 v) ∧
      0 ≤ parseIntStr ((applyRowUpdate row f).1.getD 6 "")) ∧
    (∀ n : ℤ, f.coins = some n → (applyRowUpdate row f).1.getD 2 "" = intStr n) := by
  constructor
  · intro v hv
    have hc := (applyRowUpdate_cells row f).2
    simp only [hv] at hc
    refine ⟨hc, ?_⟩
    rw [hc, parseIntStr_intStr_of_nonneg _ (le_max_left 0 v)]
    exact le_max_left 0 v
  · intro n hn
    have hc := (applyRowUpdate_cells row f).1
    simp only [hn] at hc
    exact hc

/-- Witness for the amended C1 at a concrete row and field set. -/
theorem corruption_clamped_coins_unclamped_witness :
    (applyRowUpdate ["Alice", "100", "3", "", "", "", "0"]
        { coins := some (-5), corruption := some (-7) }).1.getD 6 "" = intStr (max 0 (-7)) ∧
    0 ≤ parseIntStr ((applyRowUpdate ["Alice", "100", "3", "", "", "", "0"]
        { coins := some (-5), corruption := some (-7) }).1.getD 6 "") ∧
    (applyRowUpdate ["Alice", "100", "3", "", "", "", "0"]
        { coins := some (-5), corruption := some (-7) }).1.getD 2 "" = intStr (-5) :=
  ⟨((corruption_clamped_coins_unclamped _ _).1 (-7) rfl).1,
   ((corruption_clamped_coins_unclamped _ _).1 (-7) rfl).2,
   (corruption_clamped_coins_unclamped _ _).2 (-5) rfl⟩

/-! ### C2: write-then-read round trip -/

/-- C2, evaluated at the failing input: on the spec's own example scenario,
`update_user_inventory("42", coins=15)` succeeds (three store calls: the
metadata read, the current-row read, the write) and deletes the per-id cache
entry rather than refilling it; the immediately following
`get_user_inventory("42")` then returns `None` — not a record with
`coins == 15` — because the metadata cache hit rebuilds `UserData(**data)` from
dicts whose key is `"type"` (written by `to_dict`) while the field is
`user_type`, which raises `TypeError` and collapses the read to an empty batch
result. -/
theorem update_then_get_returns_none :
    (update_user_inventory "42" { coins := some 15 } aliceWorld).1 = true ∧
    (update_user_inventory "42" { coins := some 15 } aliceWorld).2.inv_rows =
      [["Alice", "100", "15", "", "", "", "0"]] ∧
    peek (update_user_inventory "42" { coins := some 15 } aliceWorld).2.cache
      "user_data:42" = none ∧
    (update_user_inventory "42" { coins := some 15 } aliceWorld).2.sheets.api_calls = 3 ∧
    (get_user_inventory "42" (update_user_inventory "42" { coins := some 15 } aliceWorld).2).1
      = none ∧
    (get_user_inventory "42"
      (update_user_inventory "42" { coins := some 15 } aliceWorld).2).2.sheets.api_calls = 3 := by
  decide

/-! ### Preservation lemmas for the client and data-access layer -/

theorem ensure_connection_preserves (now : ℤ) (st : SheetsState) :
    (ensure_connection now st).update_attempts = st.update_attempts ∧
    (ensure_connection now st).data_attempts = st.data_attempts ∧
    (ensure_connection now st).api_calls = st.api_calls ∧
    (ensure_connection now st).sleeps = st.sleeps ∧
    (ensure_connection now st).open_attempts = st.open_attempts ∧
    (ensure_connection now st).failed_calls = st.failed_calls ∧
    (ensure_connection now st).successful_calls = st.successful_calls := by
  unfold ensure_connection
  by_cases h : now - st.last_refresh > REFRESH_INTERVAL <;>
    simp only [h, if_true, if_false, reduceIte] <;>
    split <;> simp

theorem ensure_connection_client (now : ℤ) (st : SheetsState) :
    (ensure_connection now st).client = true := by
  unfold ensure_connection
  by_cases h : now - st.last_refresh > REFRESH_INTERVAL <;>
    simp only [h, if_true, if_false, reduceIte] <;>
    split <;> simp_all

theorem get_sheets_preserves (o : Oracle) (fuel : ℕ) (now : ℤ) (st : SheetsState) :
    (get_sheets o fuel now st).2.update_attempts = st.update_attempts ∧
    (get_sheets o fuel now st).2.data_attempts = st.data_attempts ∧
    (get_sheets o fuel now st).2.api_calls = st.api_calls ∧
    (get_sheets o fuel now st).2.failed_calls = st.failed_calls ∧
    (get_sheets o fuel now st).2.successful_calls = st.successful_calls := by
  induction fuel generalizing st with
  | zero => exact ⟨rfl, rfl, rfl, rfl, rfl⟩
  | succ fuel ih =>
    have hp := ensure_connection_preserves now st
    simp only [get_sheets]
    split
    · exact ⟨hp.1, hp.2.1, hp.2.2.1, hp.2.2.2.2.2.1, hp.2.2.2.2.2.2⟩
    · split
      · exact ⟨hp.1, hp.2.1, hp.2.2.1, hp.2.2.2.2.2.1, hp.2.2.2.2.2.2⟩
      · split
        · refine ⟨?_, ?_, ?_, ?_, ?_⟩
          · rw [(ih _).1]; exact hp.1
          · rw [(ih _).2.1]; exact hp.2.1
          · rw [(ih _).2.2.1]; exact hp.2.2.1
          · rw [(ih _).2.2.2.1]; exact hp.2.2.2.2.2.1
          · rw [(ih _).2.2.2.2]; exact hp.2.2.2.2.2.2
        · exact ⟨hp.1, hp.2.1, hp.2.2.1, hp.2.2.2.2.2.1, hp.2.2.2.2.2.2⟩

theorem batch_get_inventory_preserves (w : World) :
    (batch_get_inventory w).2.sheets.update_attempts = w.sheets.update_attempts ∧
    (batch_get_inventory w).2.cache = w.cache ∧
    (batch_get_inventory w).2.inv_rows = w.inv_rows ∧
    (batch_get_inventory w).2.meta_rows = w.meta_rows ∧
    (batch_get_inventory w).2.oracle = w.oracle ∧
    (batch_get_inventory w).2.now = w.now := by
  have hg := get_sheets_preserves w.oracle SHEETS_FUEL w.now w.sheets
  simp only [batch_get_inventory, countSuccess, countFailure]
  split
  · split
    · exact ⟨hg.1, rfl, rfl, rfl, rfl, rfl⟩
    · exact ⟨hg.1, rfl, rfl, rfl, rfl, rfl⟩
  · exact ⟨hg.1, rfl, rfl, rfl, rfl, rfl⟩

theorem batch_get_meta_preserves (w : World) :
    (batch_get_meta w).2.sheets.update_attempts = w.sheets.update_attempts ∧
    (batch_get_meta w).2.inv_rows = w.inv_rows ∧
    (batch_get_meta w).2.meta_rows = w.meta_rows ∧
    (batch_get_meta w).2.oracle = w.oracle ∧
    (batch_get_meta w).2.now = w.now ∧
    (batch_get_meta w).2.cache = w.cache := by
  have hg := get_sheets_preserves w.oracle SHEETS_FUEL w.now w.sheets
  simp only [batch_get_meta, countSuccess, countFailure]
  split
  · split
    · exact ⟨hg.1, rfl, rfl, rfl, rfl, rfl⟩
    · exact ⟨hg.1, rfl, rfl, rfl, rfl, rfl⟩
  · exact ⟨hg.1, rfl, rfl, rfl, rfl, rfl⟩

theorem batch_update_rows_preserves (us : List (ℕ × List String)) (w : World) :
    (batch_update_rows us w).2.cache = w.cache ∧
    (batch_update_rows us w).2.meta_rows = w.meta_rows ∧
    (batch_update_rows us w).2.oracle = w.oracle ∧
    (batch_update_rows us w).2.now = w.now := by
  simp only [batch_update_rows, countSuccess, countFailure]
  split
  · split
    · exact ⟨rfl, rfl, rfl, rfl⟩
    · exact ⟨rfl, rfl, rfl, rfl⟩
  · exact ⟨rfl, rfl, rfl, rfl⟩

theorem batch_update_rows_false_of_updateOk_false (us : List (ℕ × List String)) (w : World)
    (h : w.oracle.updateOk = false) : (batch_update_rows us w).1 = false := by
  simp only [batch_update_rows, countSuccess, countFailure]
  split
  · rw [h]; simp
  · rfl

theorem get_cached_metadata_preserves (w : World) :
    (get_cached_metadata w).2.sheets.update_attempts = w.sheets.update_attempts ∧
    (get_cached_metadata w).2.inv_rows = w.inv_rows ∧
    (get_cached_metadata w).2.meta_rows = w.meta_rows ∧
    (get_cached_metadata w).2.oracle = w.oracle ∧
    (get_cached_metadata w).2.now = w.now := by
  have hfetch : ∀ w' : World,
      (get_cached_metadata.fetchMetadata w').2.sheets.update_attempts
          = w'.sheets.update_attempts ∧
      (get_cached_metadata.fetchMetadata w').2.inv_rows = w'.inv_rows ∧
      (get_cached_metadata.fetchMetadata w').2.meta_rows = w'.meta_rows ∧
      (get_cached_metadata.fetchMetadata w').2.oracle = w'.oracle ∧
      (get_cached_metadata.fetchMetadata w').2.now = w'.now := by
    intro w'
    have hbm := batch_get_meta_preserves w'
    unfold get_cached_metadata.fetchMetadata
    rcases hb : batch_get_meta w' with ⟨r, w2⟩
    rw [hb] at hbm
    cases r with
    | error e => exact ⟨hbm.1, hbm.2.1, hbm.2.2.1, hbm.2.2.2.1, hbm.2.2.2.2.1⟩
    | ok pr =>
      exact ⟨hbm.1, hbm.2.1, hbm.2.2.1, hbm.2.2.2.1, hbm.2.2.2.2.1⟩
  simp only [get_cached_metadata]
  rcases hg : (cache_get w.now "user_metadata" w.cache).1 with _ | v
  · exact hfetch _
  · dsimp only
    cases v with
    | dict d =>
      by_cases htr : (CVal.dict d).truthy = true
      · rw [if_pos htr]; exact ⟨rfl, rfl, rfl, rfl, rfl⟩
      · rw [if_neg htr]; exact hfetch _
    | dictMap m =>
      by_cases htr : (CVal.dictMap m).truthy = true
      · rw [if_pos htr]; exact ⟨rfl, rfl, rfl, rfl, rfl⟩
      · rw [if_neg htr]; exact hfetch _
    | str s =>
      by_cases htr : (CVal.str s).truthy = true
      · rw [if_pos htr]; exact ⟨rfl, rfl, rfl, rfl, rfl⟩
      · rw [if_neg htr]; exact hfetch _

/-- C5: for both update operations, when the flow reaches the underlying
`batch_update` (the write-attempt counter moved) and the store write fails,
the operation returns the failure result and performs no cache mutation from
the moment of the write onward: the final cache is exactly the cache as of the
metadata resolution that preceded the write, so the per-id entries, the
aggregate entry and the display entries still reflect the last known-good
state. -/
theorem failed_write_invalidates_nothing (w : World) (uid : String) (f : UpdFields)
    (ups : List (String × UpdFields)) (h : w.oracle.updateOk = false) :
    ((update_user_inventory uid f w).2.sheets.update_attempts ≠ w.sheets.update_attempts →
      (update_user_inventory uid f w).1 = false ∧
      (update_user_inventory uid f w).2.cache = (get_cached_metadata w).2.cache) ∧
    ((batch_update_user_inventory ups w).2.sheets.update_attempts ≠ w.sheets.update_attempts →
      (batch_update_user_inventory ups w).1 = false ∧
      (batch_update_user_inventory ups w).2.cache = (get_cached_metadata w).2.cache) := by
  have hmp := get_cached_metadata_preserves w
  constructor
  · simp only [update_user_inventory]
    rcases hm : get_cached_metadata w with ⟨mr, w1⟩
    rw [hm] at hmp
    cases mr with
    | error e => intro hatt; exact absurd hmp.1 hatt
    | ok meta =>
      dsimp only
      rcases hl : alookup uid meta with _ | md
      · intro hatt; exact absurd hmp.1 hatt
      · dsimp only
        have hbp := batch_get_inventory_preserves w1
        rcases hb : batch_get_inventory w1 with ⟨br, w2⟩
        rw [hb] at hbp
        cases br with
        | error e => intro hatt; exact absurd (hbp.1.trans hmp.1) hatt
        | ok rows =>
          dsimp only
          split
          · intro hatt; exact absurd (hbp.1.trans hmp.1) hatt
          · rename_i idx hfx
            have horacle : w2.oracle.updateOk = false := by
              rw [hbp.2.2.2.2.1, hmp.2.2.2.1, h]
            by_cases hupd : (applyRowUpdate (rows.getD idx []) f).2 = true
            · simp only [hupd, Bool.not_true, Bool.false_eq_true, if_false, reduceIte]
              have hbu1 := batch_update_rows_false_of_updateOk_false
                [(idx, (applyRowUpdate (rows.getD idx []) f).1)] w2 horacle
              have hbup := batch_update_rows_preserves
                [(idx, (applyRowUpdate (rows.getD idx []) f).1)] w2
              rw [hbu1]
              simp only [Bool.false_eq_true, if_false, reduceIte]
              intro hatt
              exact ⟨by trivial, hbup.1.trans hbp.2.1⟩
            · simp only [Bool.not_eq_true] at hupd
              simp only [hupd, Bool.not_false, if_true, reduceIte]
              intro hatt
              exact absurd (hbp.1.trans hmp.1) hatt
  · simp only [batch_update_user_inventory]
    by_cases hemp : ups.isEmpty = true
    · simp only [hemp, if_true, reduceIte]
      intro hatt
      exact absurd rfl hatt
    · simp only [hemp, Bool.false_eq_true, if_false, reduceIte]
      rcases hm : get_cached_metadata w with ⟨mr, w1⟩
      rw [hm] at hmp
      cases mr with
      | error e => intro hatt; exact absurd hmp.1 hatt
      | ok meta =>
        dsimp only
        have hbp := batch_get_inventory_preserves w1
        rcases hb : batch_get_inventory w1 with ⟨br, w2⟩
        rw [hb] at hbp
        cases br with
        | error e => intro hatt; exact absurd (hbp.1.trans hmp.1) hatt
        | ok rows =>
          dsimp only
          have horacle : w2.oracle.updateOk = false := by
            rw [hbp.2.2.2.2.1, hmp.2.2.2.1, h]
          split
          · intro hatt; exact absurd (hbp.1.trans hmp.1) hatt
          · rw [batch_update_rows_false_of_updateOk_false _ w2 horacle]
            simp only [Bool.false_eq_true, if_false, reduceIte]
            intro hatt
            exact ⟨by trivial, (batch_update_rows_preserves _ w2).1.trans hbp.2.1⟩

/-- Witness for C5: on the example world with a failing write, the single
update attempts the write, returns `False`, and leaves the cache exactly as
after the metadata resolution. -/
theorem failed_write_invalidates_nothing_witness :
    ((update_user_inventory "42" { coins := some 15 }
        { aliceWorld with oracle := { okOracle with updateOk := false } }).2.sheets.update_attempts ≠
      { aliceWorld with oracle := { okOracle with updateOk := false } }.sheets.update_attempts →
      (update_user_inventory "42" { coins := some 15 }
        { aliceWorld with oracle := { okOracle with updateOk := false } }).1 = false ∧
      (update_user_inventory "42" { coins := some 15 }
          { aliceWorld with oracle := { okOracle with updateOk := false } }).2.cache =
        (get_cached_metadata
          { aliceWorld with oracle := { okOracle with updateOk := false } }).2.cache) ∧
    ((batch_update_user_inventory [("42", { coins := some 15 })]
        { aliceWorld with oracle := { okOracle with updateOk := false } }).2.sheets.update_attempts ≠
      { aliceWorld with oracle := { okOracle with updateOk := false } }.sheets.update_attempts →
      (batch_update_user_inventory [("42", { coins := some 15 })]
        { aliceWorld with oracle := { okOracle with updateOk := false } }).1 = false ∧
      (batch_update_user_inventory [("42", { coins := some 15 })]
          { aliceWorld with oracle := { okOracle with updateOk := false } }).2.cache =
        (get_cached_metadata
          { aliceWorld with oracle := { okOracle with updateOk := false } }).2.cache) :=
  failed_write_invalidates_nothing
    { aliceWorld with oracle := { okOracle with updateOk := false } } "42"
    { coins := some 15 } [("42", { coins := some 15 })] rfl

theorem applyRowUpdate_noop (row : List String) : (applyRowUpdate row {}).2 = false := rfl

theorem foldl_const_of_id {α β : Type} (g : β → α → β) (l : List α) (acc : β)
    (h : ∀ b, ∀ a ∈ l, g b a = b) : l.foldl g acc = acc := by
  induction l generalizing acc with
  | nil => rfl
  | cons a l ih =>
    rw [List.foldl_cons, h acc a (List.mem_cons_self _ _)]
    exact ih _ (fun b x hx => h b x (List.mem_cons_of_mem _ hx))

/-- C10 counterexample: on the example world, `update_user_inventory` with
every optional field absent returns success and performs no store write, but it
still issues two store calls (the metadata read and the current-rows read), so
the claim's "without issuing any store call" is false. -/
theorem noop_update_counterexample :
    (update_user_inventory "42" {} aliceWorld).1 = true ∧
    (update_user_inventory "42" {} aliceWorld).2.sheets.api_calls = 2 ∧
    (update_user_inventory "42" {} aliceWorld).2.sheets.update_attempts = 0 := by
  decide

/-- C10 (amended): `batchUpdateUserInventory({})` returns success immediately
with the world unchanged; `updateUserInventory` with every optional field
absent never moves the write counter and, when it returns success, leaves the
cache exactly as after the metadata resolution (no invalidation); when the id
resolves and its row is found it returns success with the world as of the two
reads (metadata and current rows, which are still issued); and a nonempty batch
in which no id resolves to a row likewise returns success with the world as of
the two reads and no write. -/
theorem noop_updates_no_write :
    (∀ w' : World, batch_update_user_inventory [] w' = (true, w')) ∧
    (∀ (w' : World) (uid : String),
      (update_user_inventory uid {} w').2.sheets.update_attempts
          = w'.sheets.update_attempts ∧
      ((update_user_inventory uid {} w').1 = true →
        (update_user_inventory uid {} w').2.cache = (get_cached_metadata w').2.cache)) ∧
    (∀ (w' : World) (uid : String) (meta : List (String × UserData)) (w1 : World)
        (md : UserData) (rows : List (List String)) (w2 : World) (idx : ℕ),
      get_cached_metadata w' = (.ok meta, w1) →
      alookup uid meta = some md →
      batch_get_inventory w1 = (.ok rows, w2) →
      rows.findIdx? (fun row => !row.isEmpty && (strTrim (row.getD 0 "") == md.inventory_name))
          = some idx →
      update_user_inventory uid {} w' = (true, w2)) ∧
    (∀ (w' : World) (ups : List (String × UpdFields)) (meta : List (String × UserData))
        (w1 : World) (rows : List (List String)) (w2 : World),
      ups ≠ [] →
      get_cached_metadata w' = (.ok meta, w1) →
      batch_get_inventory w1 = (.ok rows, w2) →
      (∀ p ∈ ups, ∀ md : UserData, alookup p.1 meta = some md →
        rows.findIdx? (fun row => !row.isEmpty && (strTrim (row.getD 0 "") == md.inventory_name))
          = none) →
      batch_update_user_inventory ups w' = (true, w2)) := by
  refine ⟨fun w' => rfl, ?_, ?_, ?_⟩
  · intro w' uid
    have hmp := get_cached_metadata_preserves w'
    simp only [update_user_inventory]
    rcases hm : get_cached_metadata w' with ⟨mr, w1⟩
    rw [hm] at hmp
    cases mr with
    | error e => exact ⟨hmp.1, fun hr => absurd hr Bool.false_ne_true⟩
    | ok meta =>
      dsimp only
      rcases hl : alookup uid meta with _ | md
      · exact ⟨hmp.1, fun hr => absurd hr Bool.false_ne_true⟩
      · dsimp only
        have hbp := batch_get_inventory_preserves w1
        rcases hb : batch_get_inventory w1 with ⟨br, w2⟩
        rw [hb] at hbp
        cases br with
        | error e => exact ⟨hbp.1.trans hmp.1, fun hr => absurd hr Bool.false_ne_true⟩
        | ok rows =>
          dsimp only
          split
          · exact ⟨hbp.1.trans hmp.1, fun hr => absurd hr Bool.false_ne_true⟩
          · rename_i idx hfx
            rw [applyRowUpdate_noop]
            simp only [Bool.not_false, if_true, reduceIte]
            exact ⟨hbp.1.trans hmp.1, fun _ => hbp.2.1⟩
  · intro w' uid meta w1 md rows w2 idx hm hl hb hfx
    simp only [update_user_inventory]
    rw [hm]
    dsimp only
    rw [hl]
    dsimp only
    rw [hb]
    dsimp only
    rw [hfx]
    dsimp only
    rw [applyRowUpdate_noop]
    simp only [Bool.not_false, if_true, reduceIte]
  · intro w' ups meta w1 rows w2 hne hm hb hno
    have hempf : ups.isEmpty = false := by
      cases ups with
      | nil => exact absurd rfl hne
      | cons a l => rfl
    simp only [batch_update_user_inventory, hempf, Bool.false_eq_true, if_false, reduceIte]
    rw [hm]
    dsimp only
    rw [hb]
    dsimp only
    have hmap : ups.foldl (fun acc p =>
        match alookup p.1 meta with
        | none => acc
        | some md =>
          match rows.findIdx?
              (fun row => !row.isEmpty && (strTrim (row.getD 0 "") == md.inventory_name)) with
          | none => acc
          | some idx => assocSet acc p.1 idx) ([] : List (String × ℕ)) = [] := by
      apply foldl_const_of_id
      intro b p hp
      rcases hmd : alookup p.1 meta with _ | md
      · rfl
      · dsimp only
        rw [hno p hp md hmd]
    rw [hmap]
    have hbuilt : ups.foldl (fun (acc : List (ℕ × List String) × List String) p =>
        match alookup p.1 ([] : List (String × ℕ)) with
        | none => acc
        | some row_idx =>
          (acc.1 ++ [(row_idx, (applyRowUpdate (rows.getD row_idx []) p.2).1)],
           acc.2 ++ [p.1])) ([], []) = ([], []) := by
      apply foldl_const_of_id
      intro b p hp
      rfl
    rw [hbuilt]
    rfl

/-- The metadata mapping that `get_cached_metadata` builds on `aliceWorld`. -/
def aliceMeta : List (String × UserData) :=
  [("42", { user_id := "42", name := "Alice", inventory_name := "Alice", user_type := "user" })]

/-- Witness for the amended C10 on the example world. -/
theorem noop_updates_no_write_witness :
    batch_update_user_inventory [] aliceWorld = (true, aliceWorld) ∧
    (update_user_inventory "42" {} aliceWorld).2.sheets.update_attempts
        = aliceWorld.sheets.update_attempts ∧
    (update_user_inventory "42" {} aliceWorld).2.cache
        = (get_cached_metadata aliceWorld).2.cache ∧
    update_user_inventory "42" {} aliceWorld =
      (true, (batch_get_inventory (get_cached_metadata aliceWorld).2).2) ∧
    batch_update_user_inventory [("alien", ({} : UpdFields))] aliceWorld =
      (true, (batch_get_inventory (get_cached_metadata aliceWorld).2).2) := by
  refine ⟨noop_updates_no_write.1 aliceWorld,
    (noop_updates_no_write.2.1 aliceWorld "42").1,
    (noop_updates_no_write.2.1 aliceWorld "42").2 (by decide), ?_, ?_⟩
  all_goals
    have hmeta : get_cached_metadata aliceWorld =
        (Except.ok aliceMeta, (get_cached_metadata aliceWorld).2) :=
      Prod.ext (by decide) rfl
  all_goals
    have hrows : batch_get_inventory (get_cached_metadata aliceWorld).2 =
        (Except.ok [["Alice", "100", "10", "", "", "", "0"]],
          (batch_get_inventory (get_cached_metadata aliceWorld).2).2) :=
      Prod.ext (by decide) rfl
  · exact noop_updates_no_write.2.2.1 aliceWorld "42" aliceMeta
      (get_cached_metadata aliceWorld).2
      { user_id := "42", name := "Alice", inventory_name := "Alice", user_type := "user" }
      [["Alice", "100", "10", "", "", "", "0"]]
      (batch_get_inventory (get_cached_metadata aliceWorld).2).2 0 hmeta rfl hrows (by decide)
  · refine noop_updates_no_write.2.2.2 aliceWorld [("alien", ({} : UpdFields))] aliceMeta
      (get_cached_metadata aliceWorld).2 [["Alice", "100", "10", "", "", "", "0"]]
      (batch_get_inventory (get_cached_metadata aliceWorld).2).2
      (by simp) hmeta hrows ?_
    intro p hp md hmd
    simp only [List.mem_singleton] at hp
    subst hp
    have h0 : alookup ("alien", ({} : UpdFields)).1 aliceMeta = none := by decide
    rw [h0] at hmd
    exact Option.noConfusion hmd

/-! ### C6: retry behaviour of the store-client calls -/

/-- A `GoogleSheetsClient` whose session and worksheet handles are live and
fresh (`last_refresh` equal to the example world's clock). -/
def connectedSheets : SheetsState :=
  { client := true, inv_sheet := true, meta_sheet := true, last_refresh := 1000,
    conn_attempts := 0, api_calls := 0, successful_calls := 0, failed_calls := 0,
    sleeps := [], open_attempts := 0, data_attempts := 0, update_attempts := 0 }

/-- Every worksheet open succeeds; every data call fails. -/
def failDataOracle : Oracle :=
  { openOk := fun _ => true, getOk := false, updateOk := false, cellOk := false }

/-- The example world with a live session and failing data calls. -/
def c6World : World :=
  { aliceWorld with sheets := connectedSheets, oracle := failDataOracle }

/-- The first worksheet open fails; every later open and every data call
succeeds. -/
def retryOracle : Oracle :=
  { openOk := fun i => decide (1 ≤ i), getOk := true, updateOk := true, cellOk := true }

/-- C6 counterexample: on a live session whose data calls fail, `batch_get`
raises after exactly one data attempt with no backoff sleep and with the
session left valid (`client`, `inv_sheet` still set) — the failure is neither
retried nor does it invalidate the session; `batch_update` likewise returns
`False` and `get_single_cell` returns `None` after one attempt each. The
retry-with-backoff behaviour the claim describes exists only in the
worksheet-open step: a failing first open is retried after a `2**attempts`
backoff sleep inside `get_sheets` itself. -/
theorem data_call_failure_not_retried_counterexample :
    ((batch_get_inventory c6World).1 = Except.error () ∧
      (batch_get_inventory c6World).2.sheets.data_attempts = 1 ∧
      (batch_get_inventory c6World).2.sheets.client = true ∧
      (batch_get_inventory c6World).2.sheets.inv_sheet = true ∧
      (batch_get_inventory c6World).2.sheets.sleeps = [] ∧
      (batch_get_inventory c6World).2.sheets.api_calls = 1 ∧
      (batch_get_inventory c6World).2.sheets.failed_calls = 1) ∧
    ((batch_update_rows [(0, ["Alice", "100", "15", "", "", "", "0"])] c6World).1 = false ∧
      (batch_update_rows [(0, ["Alice", "100", "15", "", "", "", "0"])]
          c6World).2.sheets.update_attempts = 1 ∧
      (batch_update_rows [(0, ["Alice", "100", "15", "", "", "", "0"])]
          c6World).2.sheets.client = true ∧
      (batch_update_rows [(0, ["Alice", "100", "15", "", "", "", "0"])]
          c6World).2.sheets.sleeps = []) ∧
    ((get_single_cell c6World).1 = none ∧
      (get_single_cell c6World).2.sheets.data_attempts = 1 ∧
      (get_single_cell c6World).2.sheets.client = true ∧
      (get_single_cell c6World).2.sheets.sleeps = []) ∧
    ((get_sheets retryOracle SHEETS_FUEL 1000 freshSheets).1 = true ∧
      (get_sheets retryOracle SHEETS_FUEL 1000 freshSheets).2.sleeps = [2] ∧
      (get_sheets retryOracle SHEETS_FUEL 1000 freshSheets).2.open_attempts = 2) := by
  decide

/-- When every worksheet open succeeds, `get_sheets` succeeds without sleeping
and leaves the session live. -/
theorem get_sheets_allok (o : Oracle) (fuel : ℕ) (now : ℤ) (st : SheetsState)
    (hopen : ∀ i, o.openOk i = true) (hf : 1 ≤ fuel) :
    (get_sheets o fuel now st).1 = true ∧
    (get_sheets o fuel now st).2.sleeps = st.sleeps ∧
    (get_sheets o fuel now st).2.client = true := by
  obtain ⟨n, rfl⟩ : ∃ n, fuel = n + 1 := ⟨fuel - 1, by omega⟩
  have hp := ensure_connection_preserves now st
  have hc := ensure_connection_client now st
  simp only [get_sheets]
  split
  · exact ⟨rfl, hp.2.2.2.1, hc⟩
  · simp only [hopen, reduceIte]
    exact ⟨by trivial, hp.2.2.2.1, hc⟩

/-- C6 (amended): the retry-with-backoff loop exists only inside `get_sheets`
(the worksheet-open step). When the data call itself fails, the failure is not
retried, the cached session is not invalidated, and no backoff sleep happens:
`batch_get` raises to its caller, `batch_update` returns `False` and
`get_single_cell` returns `None`, each after exactly one data attempt, with
the session left live and the sleep log unchanged. -/
theorem data_call_failures_not_retried (w : World) (us : List (ℕ × List String))
    (hopen : ∀ i, w.oracle.openOk i = true) :
    (w.oracle.getOk = false →
      (batch_get_inventory w).1 = Except.error () ∧
      (batch_get_inventory w).2.sheets.data_attempts = w.sheets.data_attempts + 1 ∧
      (batch_get_inventory w).2.sheets.client = true ∧
      (batch_get_inventory w).2.sheets.sleeps = w.sheets.sleeps ∧
      (batch_get_inventory w).2.sheets.failed_calls = w.sheets.failed_calls + 1) ∧
    (w.oracle.updateOk = false →
      (batch_update_rows us w).1 = false ∧
      (batch_update_rows us w).2.sheets.update_attempts = w.sheets.update_attempts + 1 ∧
      (batch_update_rows us w).2.sheets.client = true ∧
      (batch_update_rows us w).2.sheets.sleeps = w.sheets.sleeps) ∧
    (w.oracle.cellOk = false →
      (get_single_cell w).1 = none ∧
      (get_single_cell w).2.sheets.data_attempts = w.sheets.data_attempts + 1 ∧
      (get_single_cell w).2.sheets.client = true ∧
      (get_single_cell w).2.sheets.sleeps = w.sheets.sleeps) := by
  have hg := get_sheets_allok w.oracle SHEETS_FUEL w.now w.sheets hopen (by decide)
  have hp := get_sheets_preserves w.oracle SHEETS_FUEL w.now w.sheets
  refine ⟨fun hget => ?_, fun hupd => ?_, fun hcell => ?_⟩
  · simp only [batch_get_inventory, hg.1, hget, countFailure, reduceIte]
    exact ⟨by trivial, by simp [hp.2.1], by simp [hg.2.2], by simp [hg.2.1],
      by simp [hp.2.2.2.1]⟩
  · simp only [batch_update_rows, hg.1, hupd, countFailure, reduceIte]
    exact ⟨by trivial, by simp [hp.1], by simp [hg.2.2], by simp [hg.2.1]⟩
  · simp only [get_single_cell, hg.1, hcell, countFailure, reduceIte]
    exact ⟨by trivial, by simp [hp.2.1], by simp [hg.2.2], by simp [hg.2.1]⟩

/-- Witness for the amended C6 on the live-session world with failing data
calls. -/
theorem data_call_failures_not_retried_witness :
    (batch_get_inventory c6World).1 = Except.error () ∧
    (batch_update_rows [(0, ["Alice", "100", "15", "", "", "", "0"])] c6World).1 = false ∧
    (get_single_cell c6World).1 = none :=
  ⟨((data_call_failures_not_retried c6World
      [(0, ["Alice", "100", "15", "", "", "", "0"])] (fun _ => rfl)).1 rfl).1,
   ((data_call_failures_not_retried c6World
      [(0, ["Alice", "100", "15", "", "", "", "0"])] (fun _ => rfl)).2.1 rfl).1,
   ((data_call_failures_not_retried c6World
      [(0, ["Alice", "100", "15", "", "", "", "0"])] (fun _ => rfl)).2.2 rfl).1⟩

/-! ### C9: nonnegativity of coins values read back from the store -/

/-- Every `"coins"` binding of a record dict that carries an int carries a
nonnegative one. -/
def dictCoinsOk (d : PyDict) : Bool :=
  d.all (fun p => p.1 != "coins" ||
    (match p.2 with | .i v => decide (0 ≤ v) | _ => true))

/-- `dictCoinsOk` on every record dict reachable inside a cached value. -/
def cvalCoinsOk : CVal → Bool
  | .dict d => dictCoinsOk d
  | .dictMap m => m.all (fun p => dictCoinsOk p.2)
  | .str _ => true

/-- Every cached value satisfies `cvalCoinsOk`: true of the empty cache and
preserved by everything this module stores. -/
def cacheCoinsOk (c : CacheM CVal) : Bool :=
  c.entries.all (fun p => cvalCoinsOk p.2.value)

theorem dictCoinsOk_spec {d : PyDict} (h : dictCoinsOk d = true) {v : ℤ}
    (hm : ("coins", PyVal.i v) ∈ d) : 0 ≤ v := by
  rw [dictCoinsOk, List.all_eq_true] at h
  simpa using h _ hm

theorem cacheCoinsOk_mem {c : CacheM CVal} (h : cacheCoinsOk c = true)
    {p : String × CEntry CVal} (hp : p ∈ c.entries) : cvalCoinsOk p.2.value = true := by
  rw [cacheCoinsOk, List.all_eq_true] at h
  exact h p hp

theorem cacheCoinsOk_cache_get (now : ℤ) (k : String) {c : CacheM CVal}
    (h : cacheCoinsOk c = true) : cacheCoinsOk (cache_get now k c).2 = true := by
  simp only [cache_get]
  split
  · rename_i e ha
    split
    · rw [cacheCoinsOk, List.all_eq_true]
      intro p hp
      exact cacheCoinsOk_mem h (List.mem_filter.1 hp).1
    · rw [cacheCoinsOk, List.all_eq_true]
      intro p hp
      rcases List.mem_append.1 hp with hp | hp
      · exact cacheCoinsOk_mem h (List.mem_filter.1 hp).1
      · rcases List.mem_singleton.1 hp with rfl
        have hmem := alookup_mem ha
        have hval := cacheCoinsOk_mem h hmem
        exact hval
  · exact h

theorem cache_get_value_ok {now : ℤ} {k : String} {c : CacheM CVal} {v : CVal}
    (h : cacheCoinsOk c = true) (hv : (cache_get now k c).1 = some v) :
    cvalCoinsOk v = true := by
  simp only [cache_get] at hv
  split at hv
  · rename_i e ha
    split at hv
    · exact Option.noConfusion (show (none : Option CVal) = some v from hv)
    · have hv' : some e.value = some v := hv
      obtain rfl : e.value = v := Option.some.inj hv'
      exact cacheCoinsOk_mem h (alookup_mem ha)
  · exact Option.noConfusion (show (none : Option CVal) = some v from hv)

theorem cacheCoinsOk_evict_lru {c : CacheM CVal} (h : cacheCoinsOk c = true) :
    cacheCoinsOk (evict_lru c) = true := by
  simp only [evict_lru]
  split
  · exact h
  · rw [cacheCoinsOk, List.all_eq_true]
    intro p hp
    exact cacheCoinsOk_mem h (List.mem_filter.1 hp).1

theorem cacheCoinsOk_cache_set (now : ℤ) (k : String) (v : CVal) (ttl : ℤ)
    {c : CacheM CVal} (h : cacheCoinsOk c = true) (hv : cvalCoinsOk v = true) :
    cacheCoinsOk (cache_set now k v ttl c) = true := by
  have hc1 : cacheCoinsOk (if c.max_size ≤ c.entries.length then evict_lru c else c) = true := by
    split
    · exact cacheCoinsOk_evict_lru h
    · exact h
  simp only [cache_set]
  rw [cacheCoinsOk, List.all_eq_true]
  intro p hp
  rcases List.mem_append.1 hp with hp | hp
  · exact cacheCoinsOk_mem hc1 (List.mem_filter.1 hp).1
  · rcases List.mem_singleton.1 hp with rfl
    exact hv

theorem assocSet_mem {β : Type} {l : List (String × β)} {k : String} {v : β}
    {p : String × β} (h : p ∈ assocSet l k v) : p ∈ l ∨ p = (k, v) := by
  unfold assocSet at h
  split at h
  · rcases List.mem_map.1 h with ⟨q, hq, he⟩
    by_cases hqk : q.1 = k
    · rw [if_pos hqk] at he
      exact Or.inr he.symm
    · rw [if_neg hqk] at he
      exact Or.inl (he ▸ hq)
  · rcases List.mem_append.1 h with h | h
    · exact Or.inl h
    · exact Or.inr (List.mem_singleton.1 h)

theorem metaRowStep_coins (nd : List (ℕ × String)) (acc : List (String × UserData))
    (p : ℕ × List String) (hacc : ∀ q ∈ acc, q.2.coins = 0) :
    ∀ q ∈ metaRowStep nd acc p, q.2.coins = 0 := by
  intro q hq
  simp only [metaRowStep] at hq
  split at hq
  · exact hacc q hq
  · rcases assocSet_mem hq with hq | hq
    · exact hacc q hq
    · rw [hq]

theorem foldl_metaRowStep_coins (nd : List (ℕ × String)) (l : List (ℕ × List String))
    (acc : List (String × UserData)) (hacc : ∀ q ∈ acc, q.2.coins = 0) :
    ∀ q ∈ l.foldl (metaRowStep nd) acc, q.2.coins = 0 := by
  induction l generalizing acc with
  | nil => exact hacc
  | cons x xs ih =>
    simp only [List.foldl_cons]
    exact ih _ (metaRowStep_coins nd acc x hacc)

theorem buildUserMapping_coins (m : List (List String)) (nd : List (ℕ × String)) :
    ∀ p ∈ buildUserMapping m nd, p.2.coins = 0 :=
  foldl_metaRowStep_coins nd m.enum [] (fun q hq => absurd hq (List.not_mem_nil q))

theorem dictCoinsOk_to_dict {u : UserData} (h : u.coins = 0) :
    dictCoinsOk u.to_dict = true := by
  simp [dictCoinsOk, UserData.to_dict, h]

theorem dictCoinsOk_parseRowToDict (info : UserData) (t : String) (row : List String) :
    dictCoinsOk (parseRowToDict info t row) = true := by
  simp [dictCoinsOk, parseRowToDict, parseCoins_nonneg]

theorem cacheCoinsOk_get_cached_metadata (w : World) (h : cacheCoinsOk w.cache = true) :
    cacheCoinsOk (get_cached_metadata w).2.cache = true := by
  have hfetch : ∀ w' : World, cacheCoinsOk w'.cache = true →
      cacheCoinsOk (get_cached_metadata.fetchMetadata w').2.cache = true := by
    intro w' h'
    have hbm := batch_get_meta_preserves w'
    unfold get_cached_metadata.fetchMetadata
    rcases hb : batch_get_meta w' with ⟨r, w2⟩
    rw [hb] at hbm
    have h2 : cacheCoinsOk w2.cache = true := by
      rw [hbm.2.2.2.2.2]
      exact h'
    cases r with
    | error e => exact h2
    | ok pr =>
      rcases pr with ⟨meta_range, inventory_names⟩
      dsimp only
      refine cacheCoinsOk_cache_set _ _ _ _ h2 ?_
      simp only [cvalCoinsOk, List.all_eq_true]
      intro q hq
      rcases List.mem_map.1 hq with ⟨p0, hp0, rfl⟩
      exact dictCoinsOk_to_dict (buildUserMapping_coins _ _ p0 hp0)
  simp only [get_cached_metadata]
  rcases hg2 : (cache_get w.now "user_metadata" w.cache).1 with _ | v
  · exact hfetch _ (cacheCoinsOk_cache_get _ _ h)
  · dsimp only
    cases v with
    | dict d =>
      by_cases htr : (CVal.dict d).truthy = true
      · rw [if_pos htr]
        exact cacheCoinsOk_cache_get _ _ h
      · rw [if_neg htr]
        exact hfetch _ (cacheCoinsOk_cache_get _ _ h)
    | dictMap m =>
      by_cases htr : (CVal.dictMap m).truthy = true
      · rw [if_pos htr]
        exact cacheCoinsOk_cache_get _ _ h
      · rw [if_neg htr]
        exact hfetch _ (cacheCoinsOk_cache_get _ _ h)
    | str s =>
      by_cases htr : (CVal.str s).truthy = true
      · rw [if_pos htr]
        exact cacheCoinsOk_cache_get _ _ h
      · rw [if_neg htr]
        exact hfetch _ (cacheCoinsOk_cache_get _ _ h)

theorem batchRowStep_inv (um : List (String × UserData)) (uids : Option (List String))
    (acc : List (String × PyDict) × World) (row : List String)
    (h1 : ∀ p ∈ acc.1, dictCoinsOk p.2 = true) (h2 : cacheCoinsOk acc.2.cache = true) :
    (∀ p ∈ (batchRowStep um uids acc row).1, dictCoinsOk p.2 = true) ∧
    cacheCoinsOk (batchRowStep um uids acc row).2.cache = true := by
  simp only [batchRowStep]
  split
  · exact ⟨h1, h2⟩
  · split
    · exact ⟨h1, h2⟩
    · split
      · exact ⟨h1, h2⟩
      · refine ⟨?_, ?_⟩
        · intro p hp
          rcases assocSet_mem hp with hp | hp
          · exact h1 p hp
          · rw [hp]
            exact dictCoinsOk_parseRowToDict _ _ _
        · exact cacheCoinsOk_cache_set _ _ _ _ h2 (dictCoinsOk_parseRowToDict _ _ _)

theorem batchRowStep_foldl_inv (um : List (String × UserData))
    (uids : Option (List String)) (rows : List (List String))
    (acc : List (String × PyDict) × World)
    (h1 : ∀ p ∈ acc.1, dictCoinsOk p.2 = true) (h2 : cacheCoinsOk acc.2.cache = true) :
    (∀ p ∈ (rows.foldl (batchRowStep um uids) acc).1, dictCoinsOk p.2 = true) ∧
    cacheCoinsOk (rows.foldl (batchRowStep um uids) acc).2.cache = true := by
  induction rows generalizing acc with
  | nil => exact ⟨h1, h2⟩
  | cons row rest ih =>
    simp only [List.foldl_cons]
    have hstep := batchRowStep_inv um uids acc row h1 h2
    exact ih _ hstep.1 hstep.2

theorem fetchBatch_coinsOk (user_ids : Option (List String)) (w : World)
    (h : cacheCoinsOk w.cache = true) :
    (∀ p ∈ (get_batch_user_data.fetchBatch user_ids w).1, dictCoinsOk p.2 = true) ∧
    cacheCoinsOk (get_batch_user_data.fetchBatch user_ids w).2.cache = true := by
  unfold get_batch_user_data.fetchBatch
  rcases hm : get_cached_metadata w with ⟨r, w2⟩
  have h2 : cacheCoinsOk w2.cache = true := by
    have hh := cacheCoinsOk_get_cached_metadata w h
    rw [hm] at hh
    exact hh
  cases r with
  | error e => exact ⟨fun p hp => absurd hp (List.not_mem_nil p), h2⟩
  | ok user_metadata =>
    dsimp only
    split
    · exact ⟨fun p hp => absurd hp (List.not_mem_nil p), h2⟩
    · rcases hb : batch_get_inventory w2 with ⟨rb, w3⟩
      have h3 : cacheCoinsOk w3.cache = true := by
        have hpre := batch_get_inventory_preserves w2
        rw [hb] at hpre
        rw [hpre.2.1]
        exact h2
      cases rb with
      | error e => exact ⟨fun p hp => absurd hp (List.not_mem_nil p), h3⟩
      | ok inventory_data =>
        dsimp only
        have hinv := batchRowStep_foldl_inv user_metadata user_ids inventory_data ([], w3)
          (fun p hp => absurd hp (List.not_mem_nil p)) h3
        refine ⟨hinv.1, ?_⟩
        split
        · refine cacheCoinsOk_cache_set _ _ _ _ hinv.2 ?_
          simp only [cvalCoinsOk, List.all_eq_true]
          intro q hq
          exact hinv.1 q hq
        · exact hinv.2

theorem get_batch_coinsOk (user_ids : Option (List String)) (w : World)
    (h : cacheCoinsOk w.cache = true) :
    (∀ p ∈ (get_batch_user_data user_ids w).1, dictCoinsOk p.2 = true) ∧
    cacheCoinsOk (get_batch_user_data user_ids w).2.cache = true := by
  simp only [get_batch_user_data]
  by_cases hu : uidsTruthy user_ids = true
  · simp only [hu, Bool.not_true, reduceIte]
    exact fetchBatch_coinsOk user_ids w h
  · rw [Bool.not_eq_true] at hu
    simp only [hu, Bool.not_false, reduceIte]
    rcases hgv : (cache_get w.now "all_user_data" w.cache).1 with _ | v
    · exact fetchBatch_coinsOk user_ids _ (cacheCoinsOk_cache_get _ _ h)
    · dsimp only
      cases v with
      | dict d =>
        by_cases htr : (CVal.dict d).truthy = true
        · rw [if_pos htr]
          exact ⟨fun p hp => absurd hp (List.not_mem_nil p),
            cacheCoinsOk_cache_get _ _ h⟩
        · rw [if_neg htr]
          exact fetchBatch_coinsOk user_ids _ (cacheCoinsOk_cache_get _ _ h)
      | dictMap m =>
        by_cases htr : (CVal.dictMap m).truthy = true
        · rw [if_pos htr]
          have hok := cache_get_value_ok h hgv
          simp only [cvalCoinsOk, List.all_eq_true] at hok
          exact ⟨hok, cacheCoinsOk_cache_get _ _ h⟩
        · rw [if_neg htr]
          exact fetchBatch_coinsOk user_ids _ (cacheCoinsOk_cache_get _ _ h)
      | str s =>
        by_cases htr : (CVal.str s).truthy = true
        · rw [if_pos htr]
          exact ⟨fun p hp => absurd hp (List.not_mem_nil p),
            cacheCoinsOk_cache_get _ _ h⟩
        · rw [if_neg htr]
          exact fetchBatch_coinsOk user_ids _ (cacheCoinsOk_cache_get _ _ h)

theorem get_user_inventory_coinsOk (uid : String) (w : World)
    (h : cacheCoinsOk w.cache = true) {d : PyDict}
    (hd : (get_user_inventory uid w).1 = some d) : dictCoinsOk d = true := by
  simp only [get_user_inventory] at hd
  split at hd
  · rename_i v hv
    split at hd
    · cases v with
      | dict d0 =>
        obtain rfl : d0 = d := Option.some.inj hd
        exact cache_get_value_ok h hv
      | dictMap m => exact Option.noConfusion (show (none : Option PyDict) = some d from hd)
      | str s => exact Option.noConfusion (show (none : Option PyDict) = some d from hd)
    · have hd' : alookup uid (get_batch_user_data (some [uid])
          { w with cache := (cache_get w.now ("user_data:" ++ uid) w.cache).2 }).1
            = some d := hd
      have hmem := alookup_mem hd'
      exact (get_batch_coinsOk (some [uid]) _ (cacheCoinsOk_cache_get _ _ h)).1 _ hmem
  · have hd' : alookup uid (get_batch_user_data (some [uid])
        { w with cache := (cache_get w.now ("user_data:" ++ uid) w.cache).2 }).1
          = some d := hd
    have hmem := alookup_mem hd'
    exact (get_batch_coinsOk (some [uid]) _ (cacheCoinsOk_cache_get _ _ h)).1 _ hmem

/-- C9: with a well-formed cache (every cached coins value nonnegative — true
of the empty cache and preserved by everything this module stores), every
record returned by `get_batch_user_data`, and every record returned by
`get_user_inventory`, carries a nonnegative coins value: the coins cell goes
through the digit-gated parse, so a non-digit cell — including a negative
number such as `"-5"` — is read back as `0`. -/
theorem coins_read_nonneg (w : World) (user_ids : Option (List String)) (uid : String)
    (h : cacheCoinsOk w.cache = true) :
    (∀ p ∈ (get_batch_user_data user_ids w).1,
      ∀ v : ℤ, ("coins", PyVal.i v) ∈ p.2 → 0 ≤ v) ∧
    (∀ d : PyDict, (get_user_inventory uid w).1 = some d →
      ∀ v : ℤ, ("coins", PyVal.i v) ∈ d → 0 ≤ v) ∧
    parseCoins "-5" = 0 := by
  refine ⟨fun p hp v hv => dictCoinsOk_spec ((get_batch_coinsOk user_ids w h).1 p hp) hv,
    fun d hd v hv => dictCoinsOk_spec (get_user_inventory_coinsOk uid w h hd) hv,
    by decide⟩

/-- Witness for C9 on the example world (cold cache). -/
theorem coins_read_nonneg_witness :
    cacheCoinsOk aliceWorld.cache = true ∧
    (∀ p ∈ (get_batch_user_data none aliceWorld).1,
      ∀ v : ℤ, ("coins", PyVal.i v) ∈ p.2 → 0 ≤ v) ∧
    parseCoins "-5" = 0 :=
  ⟨by decide, (coins_read_nonneg aliceWorld none "42" (by decide)).1,
    (coins_read_nonneg aliceWorld none "42" (by decide)).2.2⟩
